import Mathlib

/-!
AST-Printer: the recursive-descent parser and its token cursor.

A shallow embedding of `Include/tokens.hpp`, `Include/ast.hpp` and
`src/parser.cpp`.

* `std::vector<Token>` is a `List Token`; the cursor `size_t pos` is a `Nat`
  with the wrap-around of unsigned arithmetic written out (`% 2 ^ 64`).
* `int line` is an `Int` (no arithmetic is ever done on it).
* `std::shared_ptr<Node>` is a `Node`; where the parser stores or returns a
  null pointer (`Statement::left`, `Declaration::init_expr`, the result of
  `statements`) it is an `Option Node`. A `std::shared_ptr<Condition>` is a
  `Node` too (the parser only ever stores the node `condition` built there).
* A C++ exception is the `Except.error` branch of the result; the parser's only
  data member is its `TokenArray`, which is threaded through every rule.
* The grammar rules are mutually recursive and need not terminate, so they take
  a recursion budget; `none` means the budget ran out before the rule
  returned or threw.
* In string literals the braces are written `\x7b` (opening) and `\x7d`
  (closing).
-/

set_option linter.dupNamespace false

namespace ASTPrinter

/-! ## tokens.hpp -/

/-- The enumeration `TokenType`. -/
inductive TokenType where
  | If
  | Else
  | While
  | Int
  | StringKw
  | Print
  | Prints
  | Assign
  | Comparison
  | Arth
  | L1
  | R1
  | L2
  | R2
  | Semicolon
  | Separator
  | Var
  | IntLit
  | String
  | End
  deriving DecidableEq, Repr

/-- The struct `Token`. -/
structure Token where
  type : TokenType
  value : String
  line : Int
  deriving DecidableEq, Repr

/-- The default constructor `Token()`: kind `End`, empty text, line 0. -/
def Token.default : Token := { type := TokenType.End, value := "", line := 0 }

/-- The two exception classes the code throws. -/
inductive Exn where
  | runtime_error (what : String)
  | out_of_range (what : String)
  deriving DecidableEq, Repr

/-- Number of values of `size_t`. -/
def SIZE_T_RANGE : Nat := 2 ^ 64

/-- The class `TokenArray`: the token vector and the cursor. -/
structure TokenArray where
  tokens : List Token
  pos : Nat
  deriving DecidableEq, Repr

namespace TokenArray

/-- The method `push`. -/
def push (ta : TokenArray) (t : Token) : TokenArray :=
  { ta with tokens := ta.tokens ++ [t] }

/-- The method `current`: the token under the cursor, or `std::out_of_range`. -/
def current (ta : TokenArray) : Except Exn Token :=
  match ta.tokens[ta.pos]? with
  | none => Except.error (Exn.out_of_range "Token position out of range")
  | some t => Except.ok t

/-- The method `next`: `if (pos + 1 < tokens.size()) ++pos;` on `size_t`. -/
def next (ta : TokenArray) : TokenArray :=
  if (ta.pos + 1) % SIZE_T_RANGE < ta.tokens.length then
    { ta with pos := (ta.pos + 1) % SIZE_T_RANGE }
  else ta

/-- The method `empty`. -/
def empty (ta : TokenArray) : Bool := ta.tokens.isEmpty

/-- The method `reset`. -/
def reset (ta : TokenArray) : TokenArray := { ta with pos := 0 }

/-- The method `appendEndIfMissing`. -/
def appendEndIfMissing (ta : TokenArray) : TokenArray :=
  match ta.tokens.getLast? with
  | none => { ta with tokens := ta.tokens ++ [Token.mk TokenType.End "END" 1] }
  | some back =>
    if back.type ≠ TokenType.End then
      { ta with tokens := ta.tokens ++ [Token.mk TokenType.End "END" back.line] }
    else ta

/-- The method `size`. -/
def size (ta : TokenArray) : Nat := ta.tokens.length

end TokenArray

/-! ## ast.hpp -/

/-- The class hierarchy under `Node`, as one closed sum. -/
inductive Node where
  | NumberNode (tok : Token)
  | StringNode (tok : Token)
  | IdentifierNode (tok : Token)
  | BinOpNode (left : Node) (op_tok : Token) (right : Node)
  | Statement (left : Option Node) (right : Node)
  | Condition (left : Node) (op_tok : Token) (right : Node)
  | IfStatement (cond : Node) (then_body : List Node) (else_body : List Node)
  | WhileStatement (cond : Node) (body : List Node)
  | PrintStatement (print_tok : Token) (expr : Node)
  | Assignment (identifier : Token) (expression : Node)
  | Declaration (type_tok : Token) (identifier : Token) (init_expr : Option Node)

/-! ## parser.cpp -/

/-- Result of a grammar rule: `none` when the recursion budget ran out,
`some (error e)` when the rule threw `e`, `some (ok (v, tokens))` when it
returned `v` and left the parser's token array as `tokens`. -/
abbrev PResult (α : Type) : Type := Option (Except Exn (α × TokenArray))

/-- The static helper `is_value`. -/
def is_value (t : Token) (v : String) : Bool := t.value == v

/-- The `if (x) v.push_back(x);` idiom of `if_statement` and `while_statement`. -/
def push_back_if (block : Option Node) : List Node :=
  match block with
  | none => []
  | some b => [b]

namespace Parser

/-- The constructor `Parser::Parser`. -/
def Parser (tokens : TokenArray) : TokenArray := tokens.appendEndIfMissing

/-- The method `read_token_pass`. -/
def read_token_pass (expected message : String) (tokens : TokenArray) :
    Except Exn (Unit × TokenArray) :=
  match tokens.current with
  | Except.error e => Except.error e
  | Except.ok t =>
    if t.value ≠ expected then
      Except.error (Exn.runtime_error (message ++ " in line " ++ toString t.line))
    else Except.ok ((), tokens.next)

mutual

/-- The rule `factor`. -/
def factor : Nat → TokenArray → PResult Node
  | 0, _ => none
  | fuel + 1, tokens =>
    match tokens.current with
    | Except.error e => some (Except.error e)
    | Except.ok tok =>
      if tok.type = TokenType.IntLit then
        some (Except.ok (Node.NumberNode tok, tokens.next))
      else if tok.type = TokenType.String then
        some (Except.ok (Node.StringNode tok, tokens.next))
      else if tok.type = TokenType.Var then
        some (Except.ok (Node.IdentifierNode tok, tokens.next))
      else if is_value tok "(" then
        match expr fuel tokens.next with
        | none => none
        | some (Except.error e) => some (Except.error e)
        | some (Except.ok (e, tokens1)) =>
          match tokens1.current with
          | Except.error x => some (Except.error x)
          | Except.ok t1 =>
            if !is_value t1 ")" then
              some (Except.error (Exn.runtime_error ("Expected ) in line " ++ toString t1.line)))
            else some (Except.ok (e, tokens1.next))
      else
        some (Except.error
          (Exn.runtime_error ("Syntax Error: Expected value in line " ++ toString tok.line)))

/-- The rule `term`. -/
def term : Nat → TokenArray → PResult Node
  | 0, _ => none
  | fuel + 1, tokens => factor fuel tokens

/-- The `while` loop of `expr`, entered with the accumulator `left`. -/
def expr_loop : Nat → Node → TokenArray → PResult Node
  | 0, _, _ => none
  | fuel + 1, left, tokens =>
    match tokens.current with
    | Except.error e => some (Except.error e)
    | Except.ok op =>
      if op.value = "+" ∨ op.value = "-" then
        match term fuel tokens.next with
        | none => none
        | some (Except.error e) => some (Except.error e)
        | some (Except.ok (right, tokens1)) =>
          expr_loop fuel (Node.BinOpNode left op right) tokens1
      else some (Except.ok (left, tokens))

/-- The rule `expr`. -/
def expr : Nat → TokenArray → PResult Node
  | 0, _ => none
  | fuel + 1, tokens =>
    match term fuel tokens with
    | none => none
    | some (Except.error e) => some (Except.error e)
    | some (Except.ok (left, tokens1)) => expr_loop fuel left tokens1

end

/-- The rule `condition`. -/
def condition (fuel : Nat) (tokens : TokenArray) : PResult Node :=
  match expr fuel tokens with
  | none => none
  | some (Except.error e) => some (Except.error e)
  | some (Except.ok (left, tokens1)) =>
    match tokens1.current with
    | Except.error e => some (Except.error e)
    | Except.ok op =>
      if op.type ≠ TokenType.Comparison then
        some (Except.error
          (Exn.runtime_error ("Expected comparison operator in line " ++ toString op.line)))
      else
        match expr fuel tokens1.next with
        | none => none
        | some (Except.error e) => some (Except.error e)
        | some (Except.ok (right, tokens2)) =>
          some (Except.ok (Node.Condition left op right, tokens2))

/-- The rule `declarations`. -/
def declarations (fuel : Nat) (tokens : TokenArray) : PResult Node :=
  match tokens.current with
  | Except.error e => some (Except.error e)
  | Except.ok type_tok =>
    match tokens.next.current with
    | Except.error e => some (Except.error e)
    | Except.ok id =>
      if id.type ≠ TokenType.Var then
        some (Except.error
          (Exn.runtime_error ("Expected variable name in line " ++ toString id.line)))
      else
        match tokens.next.next.current with
        | Except.error e => some (Except.error e)
        | Except.ok t =>
          let init : PResult (Option Node) :=
            if is_value t "=" then
              match expr fuel tokens.next.next.next with
              | none => none
              | some (Except.error e) => some (Except.error e)
              | some (Except.ok (e, tokens1)) => some (Except.ok (some e, tokens1))
            else some (Except.ok (none, tokens.next.next))
          match init with
          | none => none
          | some (Except.error e) => some (Except.error e)
          | some (Except.ok (init_expr, tokens1)) =>
            match read_token_pass ";" "Missing ;" tokens1 with
            | Except.error e => some (Except.error e)
            | Except.ok (_, tokens2) =>
              some (Except.ok (Node.Declaration type_tok id init_expr, tokens2))

/-- The rule `assignment`. -/
def assignment (fuel : Nat) (tokens : TokenArray) : PResult Node :=
  match tokens.current with
  | Except.error e => some (Except.error e)
  | Except.ok identifier =>
    match read_token_pass "=" "Missing =" tokens.next with
    | Except.error e => some (Except.error e)
    | Except.ok (_, tokens1) =>
      match expr fuel tokens1 with
      | none => none
      | some (Except.error e) => some (Except.error e)
      | some (Except.ok (expression, tokens2)) =>
        match read_token_pass ";" "Missing ;" tokens2 with
        | Except.error e => some (Except.error e)
        | Except.ok (_, tokens3) =>
          some (Except.ok (Node.Assignment identifier expression, tokens3))

/-- The rule `printing`; its argument is unused, as in the source. -/
def printing (_type : String) (fuel : Nat) (tokens : TokenArray) : PResult Node :=
  match tokens.current with
  | Except.error e => some (Except.error e)
  | Except.ok print_tok =>
    match read_token_pass "(" "Missing ( after print" tokens.next with
    | Except.error e => some (Except.error e)
    | Except.ok (_, tokens1) =>
      match expr fuel tokens1 with
      | none => none
      | some (Except.error e) => some (Except.error e)
      | some (Except.ok (expr_node, tokens2)) =>
        match read_token_pass ")" "Missing ) after print expression" tokens2 with
        | Except.error e => some (Except.error e)
        | Except.ok (_, tokens3) =>
          match read_token_pass ";" "Missing ; after print" tokens3 with
          | Except.error e => some (Except.error e)
          | Except.ok (_, tokens4) =>
            some (Except.ok (Node.PrintStatement print_tok expr_node, tokens4))

mutual

/-- The rule `if_statement`. -/
def if_statement : Nat → TokenArray → PResult Node
  | 0, _ => none
  | fuel + 1, tokens =>
    match read_token_pass "(" "Missing ( after if" tokens.next with
    | Except.error e => some (Except.error e)
    | Except.ok (_, tokens1) =>
      match condition fuel tokens1 with
      | none => none
      | some (Except.error e) => some (Except.error e)
      | some (Except.ok (cond, tokens2)) =>
        match read_token_pass ")" "Missing ) after if condition" tokens2 with
        | Except.error e => some (Except.error e)
        | Except.ok (_, tokens3) =>
          match read_token_pass "\x7b" "Missing \x7b after if" tokens3 with
          | Except.error e => some (Except.error e)
          | Except.ok (_, tokens4) =>
            match statements fuel tokens4 with
            | none => none
            | some (Except.error e) => some (Except.error e)
            | some (Except.ok (then_block, tokens5)) =>
              match read_token_pass "\x7d" "Missing \x7d after if block" tokens5 with
              | Except.error e => some (Except.error e)
              | Except.ok (_, tokens6) =>
                match tokens6.current with
                | Except.error e => some (Except.error e)
                | Except.ok t =>
                  if is_value t "else" then
                    match read_token_pass "\x7b" "Missing \x7b after else" tokens6.next with
                    | Except.error e => some (Except.error e)
                    | Except.ok (_, tokens7) =>
                      match statements fuel tokens7 with
                      | none => none
                      | some (Except.error e) => some (Except.error e)
                      | some (Except.ok (else_block, tokens8)) =>
                        match read_token_pass "\x7d" "Missing \x7d after else block" tokens8 with
                        | Except.error e => some (Except.error e)
                        | Except.ok (_, tokens9) =>
                          some (Except.ok (Node.IfStatement cond (push_back_if then_block)
                            (push_back_if else_block), tokens9))
                  else
                    some (Except.ok (Node.IfStatement cond (push_back_if then_block) [], tokens6))

/-- The rule `while_statement`. -/
def while_statement : Nat → TokenArray → PResult Node
  | 0, _ => none
  | fuel + 1, tokens =>
    match read_token_pass "(" "Missing ( after while" tokens.next with
    | Except.error e => some (Except.error e)
    | Except.ok (_, tokens1) =>
      match condition fuel tokens1 with
      | none => none
      | some (Except.error e) => some (Except.error e)
      | some (Except.ok (cond, tokens2)) =>
        match read_token_pass ")" "Missing ) after while condition" tokens2 with
        | Except.error e => some (Except.error e)
        | Except.ok (_, tokens3) =>
          match read_token_pass "\x7b" "Missing \x7b after while" tokens3 with
          | Except.error e => some (Except.error e)
          | Except.ok (_, tokens4) =>
            match statements fuel tokens4 with
            | none => none
            | some (Except.error e) => some (Except.error e)
            | some (Except.ok (body, tokens5)) =>
              match read_token_pass "\x7d" "Missing \x7d after while block" tokens5 with
              | Except.error e => some (Except.error e)
              | Except.ok (_, tokens6) =>
                some (Except.ok (Node.WhileStatement cond (push_back_if body), tokens6))

/-- The `while` loop of `statements`, entered with the chain `left` built so
far and the token `t` last read from the cursor. -/
def statements_loop : Nat → Option Node → Token → TokenArray → PResult (Option Node)
  | 0, _, _, _ => none
  | fuel + 1, left, t, tokens =>
    if t.value ≠ "END" ∧ t.value ≠ "\x7d" then
      let right : PResult Node :=
        if t.type = TokenType.If then if_statement fuel tokens
        else if t.type = TokenType.While then while_statement fuel tokens
        else if t.type = TokenType.StringKw ∨ t.type = TokenType.Int then
          declarations fuel tokens
        else if t.type = TokenType.Print then printing "print" fuel tokens
        else if t.type = TokenType.Prints then printing "prints" fuel tokens
        else if t.type = TokenType.Var then assignment fuel tokens
        else
          some (Except.error (Exn.runtime_error ("Syntax Error in line " ++ toString t.line)))
      match right with
      | none => none
      | some (Except.error e) => some (Except.error e)
      | some (Except.ok (r, tokens1)) =>
        match tokens1.current with
        | Except.error e => some (Except.error e)
        | Except.ok t1 => statements_loop fuel (some (Node.Statement left r)) t1 tokens1
    else some (Except.ok (left, tokens))

/-- The rule `statements`. -/
def statements : Nat → TokenArray → PResult (Option Node)
  | 0, _ => none
  | fuel + 1, tokens =>
    match tokens.current with
    | Except.error e => some (Except.error e)
    | Except.ok t => statements_loop fuel none t tokens

end

/-- The method `get_root`. -/
def get_root (fuel : Nat) (tokens : TokenArray) : PResult (Option Node) :=
  match statements fuel tokens with
  | none => none
  | some (Except.error e) => some (Except.error e)
  | some (Except.ok (root, tokens1)) =>
    match tokens1.current with
    | Except.error e => some (Except.error e)
    | Except.ok t =>
      if t.type ≠ TokenType.End then
        some (Except.error (Exn.runtime_error "Syntax Error at end of program"))
      else some (Except.ok (root, tokens1))

end Parser

/-- The entry point the specification calls `parseProgram`: construct a
`Parser` on the token array and call `get_root`. -/
def parseProgram (fuel : Nat) (tokens : TokenArray) : PResult (Option Node) :=
  Parser.get_root fuel (Parser.Parser tokens)

/-- A token array as the driver builds it: the tokens pushed in order, cursor 0. -/
def TokenArray.ofList (ts : List Token) : TokenArray := { tokens := ts, pos := 0 }

/-! ## Vocabulary of the statements below -/

/-- Tokens that `factor` turns into a leaf: integer literal, string literal, identifier. -/
def is_leaf_token (f : Token) : Prop :=
  f.type = TokenType.IntLit ∨ f.type = TokenType.String ∨ f.type = TokenType.Var

instance (f : Token) : Decidable (is_leaf_token f) := by
  unfold is_leaf_token
  infer_instance

/-- The leaf node `factor` builds from a literal or identifier token. -/
def leaf (f : Token) : Node :=
  if f.type = TokenType.IntLit then Node.NumberNode f
  else if f.type = TokenType.String then Node.StringNode f
  else Node.IdentifierNode f

/-- The token run `op1 f1 ... opn fn` of a list of (operator, operand) pairs. -/
def interleave : List (Token × Token) → List Token
  | [] => []
  | (op, f) :: ps => op :: f :: interleave ps

/-- The left fold `BinOp(...BinOp(acc, op1, leaf f1)..., opn, leaf fn)`. -/
def left_fold (acc : Node) : List (Token × Token) → Node
  | [] => acc
  | (op, f) :: ps => left_fold (Node.BinOpNode acc op (leaf f)) ps

/-- The token at index `i` of `ts` exists and has text `v`. -/
def text_at (ts : List Token) (i : Nat) (v : String) : Prop :=
  ∃ t, ts[i]? = some t ∧ t.value = v

instance (ts : List Token) (i : Nat) (v : String) : Decidable (text_at ts i v) :=
  match h : ts[i]? with
  | none => isFalse (fun ⟨_, ht, _⟩ => by rw [h] at ht; exact Option.noConfusion ht)
  | some t =>
    if hv : t.value = v then isTrue ⟨t, h, hv⟩
    else isFalse (fun ⟨u, hu, huv⟩ => by
      rw [h] at hu
      exact hv (by rw [Option.some.inj hu]; exact huv))

/-- The message `msg` contains the decimal numeral of the line `l`. -/
def mentions_line (msg : String) (l : Int) : Prop :=
  (toString l).toList <:+: msg.toList

instance (msg : String) (l : Int) : Decidable (mentions_line msg l) := by
  unfold mentions_line
  infer_instance

/-- The tokens of `if (a < b) { print(a); } else { print(b); }`, all on line 1. -/
def tokens_if_else : List Token :=
  [Token.mk TokenType.If "if" 1, Token.mk TokenType.L1 "(" 1, Token.mk TokenType.Var "a" 1,
   Token.mk TokenType.Comparison "<" 1, Token.mk TokenType.Var "b" 1,
   Token.mk TokenType.R1 ")" 1, Token.mk TokenType.L2 "\x7b" 1,
   Token.mk TokenType.Print "print" 1, Token.mk TokenType.L1 "(" 1,
   Token.mk TokenType.Var "a" 1, Token.mk TokenType.R1 ")" 1,
   Token.mk TokenType.Semicolon ";" 1, Token.mk TokenType.R2 "\x7d" 1,
   Token.mk TokenType.Else "else" 1, Token.mk TokenType.L2 "\x7b" 1,
   Token.mk TokenType.Print "print" 1, Token.mk TokenType.L1 "(" 1,
   Token.mk TokenType.Var "b" 1, Token.mk TokenType.R1 ")" 1,
   Token.mk TokenType.Semicolon ";" 1, Token.mk TokenType.R2 "\x7d" 1]

/-- The tokens of `1 + 2 - 3`, all on line 1. -/
def tokens_1_plus_2_minus_3 : List Token :=
  [Token.mk TokenType.IntLit "1" 1, Token.mk TokenType.Arth "+" 1,
   Token.mk TokenType.IntLit "2" 1, Token.mk TokenType.Arth "-" 1,
   Token.mk TokenType.IntLit "3" 1]

/-- The tokens of `int x = 5;`, all on line 1. -/
def tokens_int_x_5_semi : List Token :=
  [Token.mk TokenType.Int "int" 1, Token.mk TokenType.Var "x" 1,
   Token.mk TokenType.Assign "=" 1, Token.mk TokenType.IntLit "5" 1,
   Token.mk TokenType.Semicolon ";" 1]

/-- The tokens of `int x = 5`, all on line 1, without a terminator. -/
def tokens_int_x_5 : List Token :=
  [Token.mk TokenType.Int "int" 1, Token.mk TokenType.Var "x" 1,
   Token.mk TokenType.Assign "=" 1, Token.mk TokenType.IntLit "5" 1]

/-- The tokens of `while (a < b) { }`, all on line 1. -/
def tokens_while_empty : List Token :=
  [Token.mk TokenType.While "while" 1, Token.mk TokenType.L1 "(" 1,
   Token.mk TokenType.Var "a" 1, Token.mk TokenType.Comparison "<" 1,
   Token.mk TokenType.Var "b" 1, Token.mk TokenType.R1 ")" 1,
   Token.mk TokenType.L2 "\x7b" 1, Token.mk TokenType.R2 "\x7d" 1]

/-- The tokens of `string s = "a" + b ;` on line 1, followed by `print` on line 2. -/
def tokens_string_decl : List Token :=
  [Token.mk TokenType.StringKw "string" 1, Token.mk TokenType.Var "s" 1,
   Token.mk TokenType.Assign "=" 1, Token.mk TokenType.String "a" 1,
   Token.mk TokenType.Arth "+" 1, Token.mk TokenType.Var "b" 1,
   Token.mk TokenType.Semicolon ";" 1, Token.mk TokenType.Print "print" 2]

/-- The tokens of `int x ;` and the end-of-input token. -/
def tokens_int_x_semi : List Token :=
  [Token.mk TokenType.Int "int" 1, Token.mk TokenType.Var "x" 1,
   Token.mk TokenType.Semicolon ";" 1, Token.mk TokenType.End "END" 1]

/-- The tokens of `if (a < b) { print(a); }` and the end-of-input token. -/
def tokens_if_only : List Token :=
  [Token.mk TokenType.If "if" 1, Token.mk TokenType.L1 "(" 1, Token.mk TokenType.Var "a" 1,
   Token.mk TokenType.Comparison "<" 1, Token.mk TokenType.Var "b" 1,
   Token.mk TokenType.R1 ")" 1, Token.mk TokenType.L2 "\x7b" 1,
   Token.mk TokenType.Print "print" 1, Token.mk TokenType.L1 "(" 1,
   Token.mk TokenType.Var "a" 1, Token.mk TokenType.R1 ")" 1,
   Token.mk TokenType.Semicolon ";" 1, Token.mk TokenType.R2 "\x7d" 1,
   Token.mk TokenType.End "END" 1]

/-- The tokens of `if (a < b) { }` and the end-of-input token. -/
def tokens_if_empty : List Token :=
  [Token.mk TokenType.If "if" 1, Token.mk TokenType.L1 "(" 1,
   Token.mk TokenType.Var "a" 1, Token.mk TokenType.Comparison "<" 1,
   Token.mk TokenType.Var "b" 1, Token.mk TokenType.R1 ")" 1,
   Token.mk TokenType.L2 "\x7b" 1, Token.mk TokenType.R2 "\x7d" 1,
   Token.mk TokenType.End "END" 1]

/-- The tokens of `x = 1` on line 2 and the end-of-input token on line 3. -/
def tokens_x_eq_1 : List Token :=
  [Token.mk TokenType.Var "x" 2, Token.mk TokenType.Assign "=" 2,
   Token.mk TokenType.IntLit "1" 2, Token.mk TokenType.End "END" 3]

/-- The kinds the loop of `statements` dispatches on, and the end-of-input kind. -/
def starts_statement_or_end (k : TokenType) : Prop :=
  k = TokenType.If ∨ k = TokenType.While ∨ k = TokenType.Int ∨ k = TokenType.StringKw
    ∨ k = TokenType.Print ∨ k = TokenType.Prints ∨ k = TokenType.Var ∨ k = TokenType.End

instance (k : TokenType) : Decidable (starts_statement_or_end k) := by
  unfold starts_statement_or_end
  infer_instance

/-- The method `read_token_pass` together with the parser's token array as the
call leaves it, also when it throws: nothing is written before either `throw`. -/
def Parser.read_token_pass_state (expected message : String) (tokens : TokenArray) :
    Except Exn Unit × TokenArray :=
  match tokens.current with
  | Except.error e => (Except.error e, tokens)
  | Except.ok t =>
    if t.value ≠ expected then
      (Except.error (Exn.runtime_error (message ++ " in line " ++ toString t.line)), tokens)
    else (Except.ok (), tokens.next)

/-- The tokens of `int x = 5 ;` and the end-of-input token, all on line `l`,
the terminator being a token of kind `k` and text `;`. -/
def tokens_decl_terminated_by (k : TokenType) (l : Int) : List Token :=
  [Token.mk TokenType.Int "int" l, Token.mk TokenType.Var "x" l,
   Token.mk TokenType.Assign "=" l, Token.mk TokenType.IntLit "5" l,
   Token.mk k ";" l, Token.mk TokenType.End "END" l]

/-- What the caller of `get_root` receives: the root or the exception, without
the parser's token array. -/
def ast_of (r : PResult (Option Node)) : Option (Except Exn (Option Node)) :=
  match r with
  | none => none
  | some (Except.error e) => some (Except.error e)
  | some (Except.ok (root, _)) => some (Except.ok root)

/-- The cursor is on a token of the array. -/
def TokenArray.in_range (ta : TokenArray) : Prop := ta.pos < ta.tokens.length

instance (ta : TokenArray) : Decidable ta.in_range := by
  unfold TokenArray.in_range
  infer_instance

/-- A result that keeps the cursor invariant of the array `ta` the rule started
from: a returned value comes with the same token sequence and a cursor on a
token, and a thrown exception is a `runtime_error`. -/
def keeps_cursor {α : Type} (ta : TokenArray) (r : PResult α) : Prop :=
  match r with
  | none => True
  | some (Except.error e) => ∃ m, e = Exn.runtime_error m
  | some (Except.ok (_, ta1)) => ta1.tokens = ta.tokens ∧ ta1.in_range

/-- The tokens of `if (a < b < c) { }`, all on line 1. -/
def tokens_if_chained : List Token :=
  [Token.mk TokenType.If "if" 1, Token.mk TokenType.L1 "(" 1,
   Token.mk TokenType.Var "a" 1, Token.mk TokenType.Comparison "<" 1,
   Token.mk TokenType.Var "b" 1, Token.mk TokenType.Comparison "<" 1,
   Token.mk TokenType.Var "c" 1, Token.mk TokenType.R1 ")" 1,
   Token.mk TokenType.L2 "\x7b" 1, Token.mk TokenType.R2 "\x7d" 1]

/-- The dispatch in the body of the loop of `statements`: the rule selected by
the kind of the token `t` last read from the cursor, or the syntax error. -/
def Parser.statement_rule (fuel : Nat) (t : Token) (tokens : TokenArray) : PResult Node :=
  if t.type = TokenType.If then if_statement fuel tokens
  else if t.type = TokenType.While then while_statement fuel tokens
  else if t.type = TokenType.StringKw ∨ t.type = TokenType.Int then
    declarations fuel tokens
  else if t.type = TokenType.Print then printing "print" fuel tokens
  else if t.type = TokenType.Prints then printing "prints" fuel tokens
  else if t.type = TokenType.Var then assignment fuel tokens
  else
    some (Except.error (Exn.runtime_error ("Syntax Error in line " ++ toString t.line)))

/-- The chain `Statement(...Statement(Statement(left, s1), s2)..., sn)`. -/
def chain_from (left : Option Node) : List Node → Option Node
  | [] => left
  | s :: ss => chain_from (some (Node.Statement left s)) ss

/-- Flattening of a chain: follow the left links, collect the right children
in source order. -/
def flatten_chain : Option Node → List Node
  | some (Node.Statement left right) => flatten_chain left ++ [right]
  | _ => []

/-- From the array `ta` the statements `ss` are parsed one after the other by
the rules the loop of `statements` dispatches to (each with the budget `fuel`,
each starting on a token whose text does not stop the loop), and the last one
leaves the array `final`. -/
def statement_run (fuel : Nat) : TokenArray → List Node → TokenArray → Prop
  | ta, [], final => ta = final
  | ta, s :: ss, final =>
    ∃ t ta1, ta.current = Except.ok t ∧ t.value ≠ "END" ∧ t.value ≠ "\x7d"
      ∧ Parser.statement_rule fuel t ta = some (Except.ok (s, ta1))
      ∧ statement_run fuel ta1 ss final

/-- The tokens of `int x ; x = 1 ; print ( x ) ;` on lines 1 to 3, and the
end-of-input token. -/
def tokens_three_statements : List Token :=
  [Token.mk TokenType.Int "int" 1, Token.mk TokenType.Var "x" 1,
   Token.mk TokenType.Semicolon ";" 1,
   Token.mk TokenType.Var "x" 2, Token.mk TokenType.Assign "=" 2,
   Token.mk TokenType.IntLit "1" 2, Token.mk TokenType.Semicolon ";" 2,
   Token.mk TokenType.Print "print" 3, Token.mk TokenType.L1 "(" 3,
   Token.mk TokenType.Var "x" 3, Token.mk TokenType.R1 ")" 3,
   Token.mk TokenType.Semicolon ";" 3, Token.mk TokenType.End "END" 3]

/-- The tokens of `x = 1 ;` on line 1 and `END = 2 ;` on line 2, the second
statement assigning to an identifier of text `END`, and the end-of-input token. -/
def tokens_x_then_END : List Token :=
  [Token.mk TokenType.Var "x" 1, Token.mk TokenType.Assign "=" 1,
   Token.mk TokenType.IntLit "1" 1, Token.mk TokenType.Semicolon ";" 1,
   Token.mk TokenType.Var "END" 2, Token.mk TokenType.Assign "=" 2,
   Token.mk TokenType.IntLit "2" 2, Token.mk TokenType.Semicolon ";" 2,
   Token.mk TokenType.End "END" 2]

/-- The declaration `int x ;` of `tokens_three_statements`. -/
def stmt_decl_x : Node :=
  Node.Declaration (Token.mk TokenType.Int "int" 1) (Token.mk TokenType.Var "x" 1) none

/-- The assignment `x = 1 ;` of `tokens_three_statements`. -/
def stmt_assign_x : Node :=
  Node.Assignment (Token.mk TokenType.Var "x" 2)
    (Node.NumberNode (Token.mk TokenType.IntLit "1" 2))

/-- The statement `print ( x ) ;` of `tokens_three_statements`. -/
def stmt_print_x : Node :=
  Node.PrintStatement (Token.mk TokenType.Print "print" 3)
    (Node.IdentifierNode (Token.mk TokenType.Var "x" 3))

/-- A pointer as `statements` returns it: null, or a `Statement` node. -/
def is_chain (o : Option Node) : Prop :=
  o = none ∨ ∃ l s, o = some (Node.Statement l s)

/-- A block as `if_statement` and `while_statement` store it: at most one
element, which is a `Statement` node. -/
def is_block (b : List Node) : Prop :=
  b.length ≤ 1 ∧ ∀ x ∈ b, ∃ l s, x = Node.Statement l s

/-- The tokens of `if (a < b) { print(a); } else { }` and the end-of-input token. -/
def tokens_if_empty_else : List Token :=
  [Token.mk TokenType.If "if" 1, Token.mk TokenType.L1 "(" 1, Token.mk TokenType.Var "a" 1,
   Token.mk TokenType.Comparison "<" 1, Token.mk TokenType.Var "b" 1,
   Token.mk TokenType.R1 ")" 1, Token.mk TokenType.L2 "\x7b" 1,
   Token.mk TokenType.Print "print" 1, Token.mk TokenType.L1 "(" 1,
   Token.mk TokenType.Var "a" 1, Token.mk TokenType.R1 ")" 1,
   Token.mk TokenType.Semicolon ";" 1, Token.mk TokenType.R2 "\x7d" 1,
   Token.mk TokenType.Else "else" 1, Token.mk TokenType.L2 "\x7b" 1,
   Token.mk TokenType.R2 "\x7d" 1, Token.mk TokenType.End "END" 1]

open Parser

/-! ## The cursor -/

theorem current_idx (ts : List Token) (p : Nat) (t : Token) (h : ts[p]? = some t) :
    TokenArray.current ⟨ts, p⟩ = Except.ok t := by
  simp only [TokenArray.current, h]

theorem next_idx (ts : List Token) (p : Nat) (h : p + 1 < ts.length)
    (hsize : ts.length < SIZE_T_RANGE) :
    TokenArray.next ⟨ts, p⟩ = ⟨ts, p + 1⟩ := by
  have h2 : (p + 1) % SIZE_T_RANGE = p + 1 := Nat.mod_eq_of_lt (by omega)
  simp only [TokenArray.next, h2, h, if_true]

theorem next_last (ts : List Token) (p : Nat) (h : p + 1 = ts.length)
    (hsize : ts.length < SIZE_T_RANGE) :
    TokenArray.next ⟨ts, p⟩ = ⟨ts, p⟩ := by
  have h2 : ¬ ((p + 1) % SIZE_T_RANGE < ts.length) := by
    rw [Nat.mod_eq_of_lt (by omega)]
    omega
  simp only [TokenArray.next, h2, if_false]

theorem lt_length_of_getElem? {ts : List Token} {p : Nat} {t : Token}
    (h : ts[p]? = some t) : p < ts.length := by
  by_contra hc
  rw [List.getElem?_eq_none (by omega)] at h
  exact Option.noConfusion h

theorem text_at_lt {ts : List Token} {i : Nat} {v : String} (h : text_at ts i v) :
    i < ts.length := by
  obtain ⟨t, ht, _⟩ := h
  exact lt_length_of_getElem? ht

theorem current_at (pre post : List Token) (t : Token) :
    TokenArray.current ⟨pre ++ t :: post, pre.length⟩ = Except.ok t := by
  have h : (pre ++ t :: post)[pre.length]? = some t := by
    rw [List.getElem?_append_right (Nat.le_refl _)]
    simp
  simp only [TokenArray.current, h]

theorem next_at (pre post : List Token) (t u : Token)
    (hsize : (pre ++ t :: u :: post).length < SIZE_T_RANGE) :
    TokenArray.next ⟨pre ++ t :: u :: post, pre.length⟩
      = ⟨pre ++ t :: u :: post, pre.length + 1⟩ := by
  have h1 : pre.length + 1 < (pre ++ t :: u :: post).length := by simp
  have h2 : (pre.length + 1) % SIZE_T_RANGE = pre.length + 1 :=
    Nat.mod_eq_of_lt (by omega)
  simp only [TokenArray.next, h2, h1, if_true]

theorem read_token_pass_ok (ts : List Token) (p : Nat) (e m : String)
    (h : text_at ts p e) (hnext : p + 1 < ts.length) (hsize : ts.length < SIZE_T_RANGE) :
    read_token_pass e m ⟨ts, p⟩ = Except.ok ((), ⟨ts, p + 1⟩) := by
  obtain ⟨t, ht, hv⟩ := h
  simp only [read_token_pass, current_idx ts p t ht, hv, next_idx ts p hnext hsize]
  simp

theorem read_token_pass_match (ts : List Token) (p : Nat) (e m : String)
    (h : text_at ts p e) :
    read_token_pass e m ⟨ts, p⟩ = Except.ok ((), TokenArray.next ⟨ts, p⟩) := by
  obtain ⟨t, ht, hv⟩ := h
  simp only [read_token_pass, current_idx ts p t ht, hv]
  simp

/-- After a token of text `}` at index `r`, the token `next` leaves under the
cursor is the one at `r + 1` if there is one and the `}` itself otherwise. -/
theorem current_after_close (ts : List Token) (r : Nat) (hsize : ts.length < SIZE_T_RANGE)
    (hr : text_at ts r "\x7d") (hne : ∀ t, ts[r + 1]? = some t → t.value ≠ "else") :
    ∃ t, (TokenArray.next ⟨ts, r⟩).current = Except.ok t ∧ t.value ≠ "else" := by
  obtain ⟨tr, htr, htrv⟩ := hr
  have hlt := lt_length_of_getElem? htr
  by_cases h : r + 1 < ts.length
  · rw [next_idx ts r h hsize]
    cases hc : ts[r + 1]? with
    | none => rw [List.getElem?_eq_none_iff] at hc; omega
    | some t => exact ⟨t, current_idx ts _ t hc, hne t hc⟩
  · rw [next_last ts r (by omega) hsize]
    exact ⟨tr, current_idx ts r tr htr, by rw [htrv]; decide⟩

theorem Parser_cons (T : Token) (rest : List Token) :
    ∃ rest1, Parser.Parser (TokenArray.ofList (T :: rest)) = ⟨T :: rest1, 0⟩ := by
  unfold Parser.Parser TokenArray.appendEndIfMissing TokenArray.ofList
  cases h : (T :: rest).getLast? with
  | none => simp at h
  | some back =>
    by_cases hb : back.type ≠ TokenType.End
    · exact ⟨rest ++ [Token.mk TokenType.End "END" back.line], by simp [hb]⟩
    · exact ⟨rest, by simp [hb]⟩

theorem Parser_current_cons (T : Token) (rest : List Token) :
    (Parser.Parser (TokenArray.ofList (T :: rest))).current = Except.ok T := by
  obtain ⟨rest1, h⟩ := Parser_cons T rest
  rw [h]
  exact current_idx _ 0 T (by simp)

theorem factor_ok_in_range (fuel : Nat) (tokens : TokenArray) (r : Node × TokenArray)
    (h : factor fuel tokens = some (Except.ok r)) : tokens.pos < tokens.tokens.length := by
  cases fuel with
  | zero => simp [factor] at h
  | succ n =>
    cases hc : tokens.tokens[tokens.pos]? with
    | none => simp [factor, TokenArray.current, hc] at h
    | some t => exact lt_length_of_getElem? hc

theorem expr_ok_in_range (fuel : Nat) (tokens : TokenArray) (r : Node × TokenArray)
    (h : expr fuel tokens = some (Except.ok r)) : tokens.pos < tokens.tokens.length := by
  cases fuel with
  | zero => simp [expr] at h
  | succ n =>
    cases n with
    | zero => simp [expr, term] at h
    | succ m =>
      rw [expr, term] at h
      cases hf : factor m tokens with
      | none => simp [hf] at h
      | some x =>
        cases x with
        | error e => simp [hf] at h
        | ok v => exact factor_ok_in_range m tokens v hf

theorem condition_ok_in_range (fuel : Nat) (tokens : TokenArray) (r : Node × TokenArray)
    (h : condition fuel tokens = some (Except.ok r)) : tokens.pos < tokens.tokens.length := by
  rw [condition] at h
  cases he : expr fuel tokens with
  | none => simp [he] at h
  | some x =>
    cases x with
    | error e => simp [he] at h
    | ok v => exact expr_ok_in_range fuel tokens v he

theorem statements_ok_in_range (fuel : Nat) (tokens : TokenArray)
    (r : Option Node × TokenArray)
    (h : statements fuel tokens = some (Except.ok r)) : tokens.pos < tokens.tokens.length := by
  cases fuel with
  | zero => simp [statements] at h
  | succ n =>
    cases hc : tokens.tokens[tokens.pos]? with
    | none => simp [statements, TokenArray.current, hc] at h
    | some t => exact lt_length_of_getElem? hc

theorem condition_ok_fuel (fuel : Nat) (tokens : TokenArray) (r : Node × TokenArray)
    (h : condition fuel tokens = some (Except.ok r)) : ∃ n, fuel = n + 2 := by
  match fuel with
  | 0 => simp [condition, expr] at h
  | 1 => simp [condition, expr, term] at h
  | n + 2 => exact ⟨n, rfl⟩

/-! ## A larger recursion budget does not change a result -/

theorem expr_rules_mono (f : Nat) : ∀ g, f ≤ g →
    (∀ ta r, factor f ta = some r → factor g ta = some r)
    ∧ (∀ ta r, term f ta = some r → term g ta = some r)
    ∧ (∀ left ta r, expr_loop f left ta = some r → expr_loop g left ta = some r)
    ∧ (∀ ta r, expr f ta = some r → expr g ta = some r) := by
  induction f with
  | zero =>
    intro g _
    refine ⟨?_, ?_, ?_, ?_⟩ <;> intros <;> simp_all [factor, term, expr_loop, expr]
  | succ n ih =>
    intro g hg
    obtain ⟨m, rfl⟩ : ∃ m, g = m + 1 := ⟨g - 1, by omega⟩
    obtain ⟨ihf, iht, ihl, ihe⟩ := ih m (by omega)
    refine ⟨?_, ?_, ?_, ?_⟩
    · intro ta r h
      rw [factor] at h ⊢
      cases he : expr n ta.next with
      | none =>
        rw [he] at h
        cases hc : ta.current with
        | error e => rw [hc] at h; exact h
        | ok tok =>
          rw [hc] at h
          simp only at h ⊢
          split_ifs at h ⊢
          all_goals exact h
      | some x =>
        rw [he] at h
        rw [ihe _ _ he]
        exact h
    · intro ta r h
      rw [term] at h ⊢
      exact ihf _ _ h
    · intro left ta r h
      rw [expr_loop] at h ⊢
      cases hc : ta.current with
      | error e => rw [hc] at h; exact h
      | ok op =>
        rw [hc] at h
        simp only at h ⊢
        split_ifs at h ⊢
        · cases ht : term n ta.next with
          | none => rw [ht] at h; simp at h
          | some x =>
            rw [ht] at h
            rw [iht _ _ ht]
            cases x with
            | error e => exact h
            | ok v =>
              obtain ⟨right, tokens1⟩ := v
              exact ihl _ _ _ h
        · exact h
    · intro ta r h
      rw [expr] at h ⊢
      cases ht : term n ta with
      | none => rw [ht] at h; simp at h
      | some x =>
        rw [ht] at h
        rw [iht _ _ ht]
        cases x with
        | error e => exact h
        | ok v =>
          obtain ⟨left, tokens1⟩ := v
          exact ihl _ _ _ h

theorem expr_mono {f g : Nat} (hfg : f ≤ g) {ta : TokenArray}
    {r : Except Exn (Node × TokenArray)} (h : expr f ta = some r) : expr g ta = some r :=
  (expr_rules_mono f g hfg).2.2.2 ta r h

theorem condition_mono {f g : Nat} (hfg : f ≤ g) {ta : TokenArray}
    {r : Except Exn (Node × TokenArray)} (h : condition f ta = some r) :
    condition g ta = some r := by
  rw [condition] at h ⊢
  cases he : expr f ta with
  | none => rw [he] at h; simp at h
  | some x =>
    rw [he] at h
    rw [expr_mono hfg he]
    cases x with
    | error e => exact h
    | ok v =>
      obtain ⟨left, tokens1⟩ := v
      simp only at h ⊢
      cases hc : tokens1.current with
      | error e => rw [hc] at h; exact h
      | ok op =>
        rw [hc] at h
        simp only at h ⊢
        split_ifs at h ⊢
        · exact h
        · cases he2 : expr f tokens1.next with
          | none => rw [he2] at h; simp at h
          | some y =>
            rw [he2] at h
            rw [expr_mono hfg he2]
            exact h

theorem declarations_mono {f g : Nat} (hfg : f ≤ g) {ta : TokenArray}
    {r : Except Exn (Node × TokenArray)} (h : declarations f ta = some r) :
    declarations g ta = some r := by
  simp only [declarations] at h ⊢
  cases he : expr f ta.next.next.next with
  | none =>
    rw [he] at h
    cases hc : ta.current with
    | error e => rw [hc] at h; exact h
    | ok T =>
      rw [hc] at h
      simp only at h ⊢
      cases hc1 : ta.next.current with
      | error e => rw [hc1] at h; exact h
      | ok I =>
        rw [hc1] at h
        simp only at h ⊢
        split_ifs at h ⊢
        · exact h
        · cases hc2 : ta.next.next.current with
          | error e => rw [hc2] at h; exact h
          | ok t =>
            rw [hc2] at h
            simp only at h ⊢
            split_ifs at h ⊢
            exact h
  | some x =>
    rw [he] at h
    rw [expr_mono hfg he]
    exact h

theorem assignment_mono {f g : Nat} (hfg : f ≤ g) {ta : TokenArray}
    {r : Except Exn (Node × TokenArray)} (h : assignment f ta = some r) :
    assignment g ta = some r := by
  simp only [assignment] at h ⊢
  cases hc : ta.current with
  | error e => rw [hc] at h; exact h
  | ok I =>
    rw [hc] at h
    simp only at h ⊢
    cases hr : read_token_pass "=" "Missing =" ta.next with
    | error e => rw [hr] at h; exact h
    | ok v =>
      rw [hr] at h
      obtain ⟨u, tokens1⟩ := v
      simp only at h ⊢
      cases he : expr f tokens1 with
      | none => rw [he] at h; simp at h
      | some x =>
        rw [he] at h
        rw [expr_mono hfg he]
        exact h

theorem printing_mono {f g : Nat} (hfg : f ≤ g) {ta : TokenArray} {ty : String}
    {r : Except Exn (Node × TokenArray)} (h : printing ty f ta = some r) :
    printing ty g ta = some r := by
  simp only [printing] at h ⊢
  cases hc : ta.current with
  | error e => rw [hc] at h; exact h
  | ok I =>
    rw [hc] at h
    simp only at h ⊢
    cases hr : read_token_pass "(" "Missing ( after print" ta.next with
    | error e => rw [hr] at h; exact h
    | ok v =>
      rw [hr] at h
      obtain ⟨u, tokens1⟩ := v
      simp only at h ⊢
      cases he : expr f tokens1 with
      | none => rw [he] at h; simp at h
      | some x =>
        rw [he] at h
        rw [expr_mono hfg he]
        exact h

theorem statement_rules_mono (f : Nat) : ∀ g, f ≤ g →
    (∀ ta r, if_statement f ta = some r → if_statement g ta = some r)
    ∧ (∀ ta r, while_statement f ta = some r → while_statement g ta = some r)
    ∧ (∀ left t ta r, statements_loop f left t ta = some r →
        statements_loop g left t ta = some r)
    ∧ (∀ ta r, statements f ta = some r → statements g ta = some r) := by
  induction f with
  | zero =>
    intro g _
    refine ⟨?_, ?_, ?_, ?_⟩ <;> intros <;>
      simp_all [if_statement, while_statement, statements_loop, statements]
  | succ n ih =>
    intro g hg
    obtain ⟨m, rfl⟩ : ∃ m, g = m + 1 := ⟨g - 1, by omega⟩
    have hnm : n ≤ m := by omega
    obtain ⟨ihi, ihw, ihl, ihs⟩ := ih m hnm
    refine ⟨?_, ?_, ?_, ?_⟩
    · intro ta r h
      rw [if_statement] at h ⊢
      cases h1 : read_token_pass "(" "Missing ( after if" ta.next with
      | error e => rw [h1] at h; exact h
      | ok v1 =>
        obtain ⟨u1, tokens1⟩ := v1
        rw [h1] at h
        simp only at h ⊢
        cases h2 : condition n tokens1 with
        | none => rw [h2] at h; simp at h
        | some x2 =>
          rw [h2] at h
          rw [condition_mono hnm h2]
          cases x2 with
          | error e => exact h
          | ok v2 =>
            obtain ⟨cond, tokens2⟩ := v2
            simp only at h ⊢
            cases h3 : read_token_pass ")" "Missing ) after if condition" tokens2 with
            | error e => rw [h3] at h; exact h
            | ok v3 =>
              obtain ⟨u3, tokens3⟩ := v3
              rw [h3] at h
              simp only at h ⊢
              cases h4 : read_token_pass "\x7b" "Missing \x7b after if" tokens3 with
              | error e => rw [h4] at h; exact h
              | ok v4 =>
                obtain ⟨u4, tokens4⟩ := v4
                rw [h4] at h
                simp only at h ⊢
                cases h5 : statements n tokens4 with
                | none => rw [h5] at h; simp at h
                | some x5 =>
                  rw [h5] at h
                  rw [ihs _ _ h5]
                  cases x5 with
                  | error e => exact h
                  | ok v5 =>
                    obtain ⟨then_block, tokens5⟩ := v5
                    simp only at h ⊢
                    cases h6 : read_token_pass "\x7d" "Missing \x7d after if block" tokens5 with
                    | error e => rw [h6] at h; exact h
                    | ok v6 =>
                      obtain ⟨u6, tokens6⟩ := v6
                      rw [h6] at h
                      simp only at h ⊢
                      cases h7 : tokens6.current with
                      | error e => rw [h7] at h; exact h
                      | ok t =>
                        rw [h7] at h
                        simp only at h ⊢
                        split_ifs at h ⊢
                        · cases h8 : read_token_pass "\x7b" "Missing \x7b after else"
                              tokens6.next with
                          | error e => rw [h8] at h; exact h
                          | ok v8 =>
                            obtain ⟨u8, tokens7⟩ := v8
                            rw [h8] at h
                            simp only at h ⊢
                            cases h9 : statements n tokens7 with
                            | none => rw [h9] at h; simp at h
                            | some x9 =>
                              rw [h9] at h
                              rw [ihs _ _ h9]
                              exact h
                        · exact h
    · intro ta r h
      rw [while_statement] at h ⊢
      cases h1 : read_token_pass "(" "Missing ( after while" ta.next with
      | error e => rw [h1] at h; exact h
      | ok v1 =>
        obtain ⟨u1, tokens1⟩ := v1
        rw [h1] at h
        simp only at h ⊢
        cases h2 : condition n tokens1 with
        | none => rw [h2] at h; simp at h
        | some x2 =>
          rw [h2] at h
          rw [condition_mono hnm h2]
          cases x2 with
          | error e => exact h
          | ok v2 =>
            obtain ⟨cond, tokens2⟩ := v2
            simp only at h ⊢
            cases h3 : read_token_pass ")" "Missing ) after while condition" tokens2 with
            | error e => rw [h3] at h; exact h
            | ok v3 =>
              obtain ⟨u3, tokens3⟩ := v3
              rw [h3] at h
              simp only at h ⊢
              cases h4 : read_token_pass "\x7b" "Missing \x7b after while" tokens3 with
              | error e => rw [h4] at h; exact h
              | ok v4 =>
                obtain ⟨u4, tokens4⟩ := v4
                rw [h4] at h
                simp only at h ⊢
                cases h5 : statements n tokens4 with
                | none => rw [h5] at h; simp at h
                | some x5 =>
                  rw [h5] at h
                  rw [ihs _ _ h5]
                  exact h
    · intro left t ta r h
      have key : ∀ (a b : PResult Node), (∀ x, a = some x → b = some x) →
          (match a with
            | none => none
            | some (Except.error e) => some (Except.error e)
            | some (Except.ok (r, tokens1)) =>
              match tokens1.current with
              | Except.error e => some (Except.error e)
              | Except.ok t1 =>
                statements_loop n (some (Node.Statement left r)) t1 tokens1) = some r →
          (match b with
            | none => none
            | some (Except.error e) => some (Except.error e)
            | some (Except.ok (r, tokens1)) =>
              match tokens1.current with
              | Except.error e => some (Except.error e)
              | Except.ok t1 =>
                statements_loop m (some (Node.Statement left r)) t1 tokens1) = some r := by
        intro a b hab hm
        cases a with
        | none => simp at hm
        | some x =>
          rw [hab x rfl]
          cases x with
          | error e => exact hm
          | ok v =>
            obtain ⟨rr, tokens1⟩ := v
            simp only at hm ⊢
            cases hc : tokens1.current with
            | error e => rw [hc] at hm; exact hm
            | ok t1 =>
              rw [hc] at hm
              exact ihl _ _ _ _ hm
      rw [statements_loop] at h ⊢
      split_ifs at h ⊢
      all_goals first
        | exact h
        | (simp only at h ⊢
           refine key _ _ ?_ h
           intro x hx
           first
             | exact ihi _ _ hx
             | exact ihw _ _ hx
             | exact declarations_mono hnm hx
             | exact printing_mono hnm hx
             | exact assignment_mono hnm hx)
    · intro ta r h
      rw [statements] at h ⊢
      cases hc : ta.current with
      | error e => rw [hc] at h; exact h
      | ok t =>
        rw [hc] at h
        exact ihl _ _ _ _ h

theorem statements_mono {f g : Nat} (hfg : f ≤ g) {ta : TokenArray}
    {r : Except Exn (Option Node × TokenArray)} (h : statements f ta = some r) :
    statements g ta = some r :=
  (statement_rules_mono f g hfg).2.2.2 ta r h

theorem get_root_mono {f g : Nat} (hfg : f ≤ g) {ta : TokenArray}
    {r : Except Exn (Option Node × TokenArray)} (h : get_root f ta = some r) :
    get_root g ta = some r := by
  rw [get_root] at h ⊢
  cases hs : statements f ta with
  | none => rw [hs] at h; simp at h
  | some x =>
    rw [hs] at h
    rw [statements_mono hfg hs]
    exact h

/-- A result of `parseProgram` (a returned root or an exception) is the result
for every larger recursion budget. -/
theorem parseProgram_mono {f g : Nat} (hfg : f ≤ g) {ta : TokenArray}
    {r : Except Exn (Option Node × TokenArray)} (h : parseProgram f ta = some r) :
    parseProgram g ta = some r :=
  get_root_mono hfg h

/-! ## The cursor stays on a token -/

theorem next_tokens (ta : TokenArray) : ta.next.tokens = ta.tokens := by
  unfold TokenArray.next
  split_ifs <;> rfl

theorem next_in_range (ta : TokenArray) (h : ta.in_range) : ta.next.in_range := by
  unfold TokenArray.in_range TokenArray.next at *
  split_ifs with hlt
  · exact hlt
  · exact h

theorem current_in_range (ta : TokenArray) (h : ta.in_range) :
    ∃ t, ta.current = Except.ok t ∧ ta.tokens[ta.pos]? = some t := by
  unfold TokenArray.in_range at h
  refine ⟨ta.tokens[ta.pos], ?_, ?_⟩
  · simp [TokenArray.current, List.getElem?_eq_getElem h]
  · exact List.getElem?_eq_getElem h

theorem keeps_cursor_of_eq {α : Type} {ta ta1 : TokenArray} {r : PResult α}
    (h : ta1.tokens = ta.tokens) (hr : keeps_cursor ta1 r) : keeps_cursor ta r := by
  cases r with
  | none => trivial
  | some x =>
    cases x with
    | error e => exact hr
    | ok v =>
      obtain ⟨a, ta2⟩ := v
      exact ⟨hr.1.trans h, hr.2⟩

theorem read_token_pass_keeps_cursor (e m : String) (ta : TokenArray) (h : ta.in_range) :
    keeps_cursor ta (some (read_token_pass e m ta) : PResult Unit) := by
  obtain ⟨t, ht, _⟩ := current_in_range ta h
  unfold read_token_pass
  rw [ht]
  simp only
  split_ifs
  · exact ⟨_, rfl⟩
  · exact ⟨next_tokens ta, next_in_range ta h⟩

theorem expr_rules_keep_cursor (fuel : Nat) :
    (∀ ta, ta.in_range → keeps_cursor ta (factor fuel ta))
    ∧ (∀ ta, ta.in_range → keeps_cursor ta (term fuel ta))
    ∧ (∀ left ta, ta.in_range → keeps_cursor ta (expr_loop fuel left ta))
    ∧ (∀ ta, ta.in_range → keeps_cursor ta (expr fuel ta)) := by
  induction fuel with
  | zero =>
    refine ⟨?_, ?_, ?_, ?_⟩ <;> intros <;> simp [factor, term, expr_loop, expr, keeps_cursor]
  | succ n ih =>
    obtain ⟨ihf, iht, ihl, ihe⟩ := ih
    refine ⟨?_, ?_, ?_, ?_⟩
    · intro ta h
      obtain ⟨tok, hc, _⟩ := current_in_range ta h
      rw [factor, hc]
      simp only
      have hn := next_in_range ta h
      have hnt := next_tokens ta
      split_ifs
      · exact ⟨hnt, hn⟩
      · exact ⟨hnt, hn⟩
      · exact ⟨hnt, hn⟩
      · have he := ihe ta.next hn
        cases hx : expr n ta.next with
        | none => trivial
        | some x =>
          rw [hx] at he
          cases x with
          | error e => exact he
          | ok v =>
            obtain ⟨e, ta1⟩ := v
            obtain ⟨h1, h2⟩ := he
            obtain ⟨t1, hc1, _⟩ := current_in_range ta1 h2
            simp only [hc1]
            split_ifs
            · exact ⟨_, rfl⟩
            · exact ⟨(next_tokens ta1).trans (h1.trans hnt), next_in_range ta1 h2⟩
      · exact ⟨_, rfl⟩
    · intro ta h
      rw [term]
      exact ihf ta h
    · intro left ta h
      obtain ⟨op, hc, _⟩ := current_in_range ta h
      rw [expr_loop, hc]
      simp only
      split_ifs
      · have ht := iht ta.next (next_in_range ta h)
        cases hx : term n ta.next with
        | none => trivial
        | some x =>
          rw [hx] at ht
          cases x with
          | error e => exact ht
          | ok v =>
            obtain ⟨right, ta1⟩ := v
            obtain ⟨h1, h2⟩ := ht
            exact keeps_cursor_of_eq (h1.trans (next_tokens ta)) (ihl _ ta1 h2)
      · exact ⟨rfl, h⟩
    · intro ta h
      rw [expr]
      have ht := iht ta h
      cases hx : term n ta with
      | none => trivial
      | some x =>
        rw [hx] at ht
        cases x with
        | error e => exact ht
        | ok v =>
          obtain ⟨left, ta1⟩ := v
          obtain ⟨h1, h2⟩ := ht
          exact keeps_cursor_of_eq h1 (ihl _ ta1 h2)

theorem expr_keeps_cursor (fuel : Nat) (ta : TokenArray) (h : ta.in_range) :
    keeps_cursor ta (expr fuel ta) :=
  (expr_rules_keep_cursor fuel).2.2.2 ta h

/-- What `keeps_cursor` says of a `read_token_pass` that returned. -/
theorem read_token_pass_ok_keeps {e m : String} {ta ta1 : TokenArray} {u : Unit}
    (h : ta.in_range) (hr : read_token_pass e m ta = Except.ok (u, ta1)) :
    ta1.tokens = ta.tokens ∧ ta1.in_range := by
  have := read_token_pass_keeps_cursor e m ta h
  rw [hr] at this
  exact this

/-- What `keeps_cursor` says of a `read_token_pass` that threw. -/
theorem read_token_pass_error_keeps {e m : String} {ta : TokenArray} {x : Exn}
    (h : ta.in_range) (hr : read_token_pass e m ta = Except.error x) :
    ∃ msg, x = Exn.runtime_error msg := by
  have := read_token_pass_keeps_cursor e m ta h
  rw [hr] at this
  exact this

theorem condition_keeps_cursor (fuel : Nat) (ta : TokenArray) (h : ta.in_range) :
    keeps_cursor ta (condition fuel ta) := by
  rw [condition]
  have he := expr_keeps_cursor fuel ta h
  cases hx : expr fuel ta with
  | none => trivial
  | some x =>
    rw [hx] at he
    cases x with
    | error e => exact he
    | ok v =>
      obtain ⟨left, ta1⟩ := v
      obtain ⟨h1, h2⟩ := he
      obtain ⟨op, hc, _⟩ := current_in_range ta1 h2
      simp only [hc]
      split_ifs
      · exact ⟨_, rfl⟩
      · have he2 := expr_keeps_cursor fuel ta1.next (next_in_range ta1 h2)
        cases hy : expr fuel ta1.next with
        | none => trivial
        | some y =>
          rw [hy] at he2
          cases y with
          | error e => exact he2
          | ok w =>
            obtain ⟨right, ta2⟩ := w
            exact ⟨he2.1.trans ((next_tokens ta1).trans h1), he2.2⟩

theorem declarations_keeps_cursor (fuel : Nat) (ta : TokenArray) (h : ta.in_range) :
    keeps_cursor ta (declarations fuel ta) := by
  obtain ⟨T, hc, _⟩ := current_in_range ta h
  have hn1 := next_in_range ta h
  obtain ⟨I, hc1, _⟩ := current_in_range ta.next hn1
  have hn2 := next_in_range ta.next hn1
  obtain ⟨t, hc2, _⟩ := current_in_range ta.next.next hn2
  have hn3 := next_in_range ta.next.next hn2
  have ht2 : ta.next.next.tokens = ta.tokens := (next_tokens _).trans (next_tokens _)
  have ht3 : ta.next.next.next.tokens = ta.tokens := (next_tokens _).trans ht2
  simp only [declarations, hc, hc1, hc2]
  split_ifs
  · exact ⟨_, rfl⟩
  · have he := expr_keeps_cursor fuel ta.next.next.next hn3
    cases hx : expr fuel ta.next.next.next with
    | none => trivial
    | some x =>
      rw [hx] at he
      cases x with
      | error e => exact he
      | ok v =>
        obtain ⟨e, ta1⟩ := v
        obtain ⟨h1, h2⟩ := he
        simp only
        cases hr : read_token_pass ";" "Missing ;" ta1 with
        | error x => exact read_token_pass_error_keeps h2 hr
        | ok w =>
          obtain ⟨u, ta2⟩ := w
          have := read_token_pass_ok_keeps h2 hr
          exact ⟨this.1.trans (h1.trans ht3), this.2⟩
  · simp only
    cases hr : read_token_pass ";" "Missing ;" ta.next.next with
    | error x => exact read_token_pass_error_keeps hn2 hr
    | ok w =>
      obtain ⟨u, ta2⟩ := w
      have := read_token_pass_ok_keeps hn2 hr
      exact ⟨this.1.trans ht2, this.2⟩

theorem assignment_keeps_cursor (fuel : Nat) (ta : TokenArray) (h : ta.in_range) :
    keeps_cursor ta (assignment fuel ta) := by
  obtain ⟨I, hc, _⟩ := current_in_range ta h
  have hn1 := next_in_range ta h
  simp only [assignment, hc]
  cases hr : read_token_pass "=" "Missing =" ta.next with
  | error x => exact read_token_pass_error_keeps hn1 hr
  | ok w =>
    obtain ⟨u, ta1⟩ := w
    obtain ⟨h1, h2⟩ := read_token_pass_ok_keeps hn1 hr
    simp only
    have he := expr_keeps_cursor fuel ta1 h2
    cases hx : expr fuel ta1 with
    | none => trivial
    | some x =>
      rw [hx] at he
      cases x with
      | error e => exact he
      | ok v =>
        obtain ⟨e, ta2⟩ := v
        obtain ⟨h3, h4⟩ := he
        simp only
        cases hr2 : read_token_pass ";" "Missing ;" ta2 with
        | error x => exact read_token_pass_error_keeps h4 hr2
        | ok w2 =>
          obtain ⟨u2, ta3⟩ := w2
          have := read_token_pass_ok_keeps h4 hr2
          exact ⟨this.1.trans (h3.trans (h1.trans (next_tokens ta))), this.2⟩

theorem printing_keeps_cursor (ty : String) (fuel : Nat) (ta : TokenArray)
    (h : ta.in_range) : keeps_cursor ta (printing ty fuel ta) := by
  obtain ⟨I, hc, _⟩ := current_in_range ta h
  have hn1 := next_in_range ta h
  simp only [printing, hc]
  cases hr : read_token_pass "(" "Missing ( after print" ta.next with
  | error x => exact read_token_pass_error_keeps hn1 hr
  | ok w =>
    obtain ⟨u, ta1⟩ := w
    obtain ⟨h1, h2⟩ := read_token_pass_ok_keeps hn1 hr
    simp only
    have he := expr_keeps_cursor fuel ta1 h2
    cases hx : expr fuel ta1 with
    | none => trivial
    | some x =>
      rw [hx] at he
      cases x with
      | error e => exact he
      | ok v =>
        obtain ⟨e, ta2⟩ := v
        obtain ⟨h3, h4⟩ := he
        simp only
        cases hr2 : read_token_pass ")" "Missing ) after print expression" ta2 with
        | error x => exact read_token_pass_error_keeps h4 hr2
        | ok w2 =>
          obtain ⟨u2, ta3⟩ := w2
          obtain ⟨h5, h6⟩ := read_token_pass_ok_keeps h4 hr2
          simp only
          cases hr3 : read_token_pass ";" "Missing ; after print" ta3 with
          | error x => exact read_token_pass_error_keeps h6 hr3
          | ok w3 =>
            obtain ⟨u3, ta4⟩ := w3
            have := read_token_pass_ok_keeps h6 hr3
            exact ⟨this.1.trans (h5.trans (h3.trans (h1.trans (next_tokens ta)))), this.2⟩

theorem statement_rules_keep_cursor (fuel : Nat) :
    (∀ ta, ta.in_range → keeps_cursor ta (if_statement fuel ta))
    ∧ (∀ ta, ta.in_range → keeps_cursor ta (while_statement fuel ta))
    ∧ (∀ left t ta, ta.in_range → keeps_cursor ta (statements_loop fuel left t ta))
    ∧ (∀ ta, ta.in_range → keeps_cursor ta (statements fuel ta)) := by
  induction fuel with
  | zero =>
    refine ⟨?_, ?_, ?_, ?_⟩ <;> intros <;>
      simp [if_statement, while_statement, statements_loop, statements, keeps_cursor]
  | succ n ih =>
    obtain ⟨ihi, ihw, ihl, ihs⟩ := ih
    refine ⟨?_, ?_, ?_, ?_⟩
    · intro ta h
      have hn := next_in_range ta h
      rw [if_statement]
      cases h1 : read_token_pass "(" "Missing ( after if" ta.next with
      | error x => exact read_token_pass_error_keeps hn h1
      | ok w1 =>
        obtain ⟨u1, ta1⟩ := w1
        obtain ⟨e1, r1⟩ := read_token_pass_ok_keeps hn h1
        have e1' : ta1.tokens = ta.tokens := e1.trans (next_tokens ta)
        simp only
        have hc := condition_keeps_cursor n ta1 r1
        cases h2 : condition n ta1 with
        | none => trivial
        | some x2 =>
          rw [h2] at hc
          cases x2 with
          | error e => exact hc
          | ok v2 =>
            obtain ⟨cond, ta2⟩ := v2
            obtain ⟨e2, r2⟩ := hc
            have e2' : ta2.tokens = ta.tokens := e2.trans e1'
            simp only
            cases h3 : read_token_pass ")" "Missing ) after if condition" ta2 with
            | error x => exact read_token_pass_error_keeps r2 h3
            | ok w3 =>
              obtain ⟨u3, ta3⟩ := w3
              obtain ⟨e3, r3⟩ := read_token_pass_ok_keeps r2 h3
              have e3' : ta3.tokens = ta.tokens := e3.trans e2'
              simp only
              cases h4 : read_token_pass "\x7b" "Missing \x7b after if" ta3 with
              | error x => exact read_token_pass_error_keeps r3 h4
              | ok w4 =>
                obtain ⟨u4, ta4⟩ := w4
                obtain ⟨e4, r4⟩ := read_token_pass_ok_keeps r3 h4
                have e4' : ta4.tokens = ta.tokens := e4.trans e3'
                simp only
                have hs := ihs ta4 r4
                cases h5 : statements n ta4 with
                | none => trivial
                | some x5 =>
                  rw [h5] at hs
                  cases x5 with
                  | error e => exact hs
                  | ok v5 =>
                    obtain ⟨then_block, ta5⟩ := v5
                    obtain ⟨e5, r5⟩ := hs
                    have e5' : ta5.tokens = ta.tokens := e5.trans e4'
                    simp only
                    cases h6 : read_token_pass "\x7d" "Missing \x7d after if block" ta5 with
                    | error x => exact read_token_pass_error_keeps r5 h6
                    | ok w6 =>
                      obtain ⟨u6, ta6⟩ := w6
                      obtain ⟨e6, r6⟩ := read_token_pass_ok_keeps r5 h6
                      have e6' : ta6.tokens = ta.tokens := e6.trans e5'
                      obtain ⟨t, hct, _⟩ := current_in_range ta6 r6
                      simp only [hct]
                      split_ifs
                      · have hn6 := next_in_range ta6 r6
                        cases h7 : read_token_pass "\x7b" "Missing \x7b after else" ta6.next with
                        | error x => exact read_token_pass_error_keeps hn6 h7
                        | ok w7 =>
                          obtain ⟨u7, ta7⟩ := w7
                          obtain ⟨e7, r7⟩ := read_token_pass_ok_keeps hn6 h7
                          have e7' : ta7.tokens = ta.tokens :=
                            e7.trans ((next_tokens ta6).trans e6')
                          simp only
                          have hs2 := ihs ta7 r7
                          cases h8 : statements n ta7 with
                          | none => trivial
                          | some x8 =>
                            rw [h8] at hs2
                            cases x8 with
                            | error e => exact hs2
                            | ok v8 =>
                              obtain ⟨else_block, ta8⟩ := v8
                              obtain ⟨e8, r8⟩ := hs2
                              simp only
                              cases h9 : read_token_pass "\x7d" "Missing \x7d after else block"
                                  ta8 with
                              | error x => exact read_token_pass_error_keeps r8 h9
                              | ok w9 =>
                                obtain ⟨u9, ta9⟩ := w9
                                obtain ⟨e9, r9⟩ := read_token_pass_ok_keeps r8 h9
                                exact ⟨e9.trans (e8.trans e7'), r9⟩
                      · exact ⟨e6', r6⟩
    · intro ta h
      have hn := next_in_range ta h
      rw [while_statement]
      cases h1 : read_token_pass "(" "Missing ( after while" ta.next with
      | error x => exact read_token_pass_error_keeps hn h1
      | ok w1 =>
        obtain ⟨u1, ta1⟩ := w1
        obtain ⟨e1, r1⟩ := read_token_pass_ok_keeps hn h1
        have e1' : ta1.tokens = ta.tokens := e1.trans (next_tokens ta)
        simp only
        have hc := condition_keeps_cursor n ta1 r1
        cases h2 : condition n ta1 with
        | none => trivial
        | some x2 =>
          rw [h2] at hc
          cases x2 with
          | error e => exact hc
          | ok v2 =>
            obtain ⟨cond, ta2⟩ := v2
            obtain ⟨e2, r2⟩ := hc
            have e2' : ta2.tokens = ta.tokens := e2.trans e1'
            simp only
            cases h3 : read_token_pass ")" "Missing ) after while condition" ta2 with
            | error x => exact read_token_pass_error_keeps r2 h3
            | ok w3 =>
              obtain ⟨u3, ta3⟩ := w3
              obtain ⟨e3, r3⟩ := read_token_pass_ok_keeps r2 h3
              have e3' : ta3.tokens = ta.tokens := e3.trans e2'
              simp only
              cases h4 : read_token_pass "\x7b" "Missing \x7b after while" ta3 with
              | error x => exact read_token_pass_error_keeps r3 h4
              | ok w4 =>
                obtain ⟨u4, ta4⟩ := w4
                obtain ⟨e4, r4⟩ := read_token_pass_ok_keeps r3 h4
                have e4' : ta4.tokens = ta.tokens := e4.trans e3'
                simp only
                have hs := ihs ta4 r4
                cases h5 : statements n ta4 with
                | none => trivial
                | some x5 =>
                  rw [h5] at hs
                  cases x5 with
                  | error e => exact hs
                  | ok v5 =>
                    obtain ⟨body, ta5⟩ := v5
                    obtain ⟨e5, r5⟩ := hs
                    simp only
                    cases h6 : read_token_pass "\x7d" "Missing \x7d after while block" ta5 with
                    | error x => exact read_token_pass_error_keeps r5 h6
                    | ok w6 =>
                      obtain ⟨u6, ta6⟩ := w6
                      obtain ⟨e6, r6⟩ := read_token_pass_ok_keeps r5 h6
                      exact ⟨e6.trans (e5.trans e4'), r6⟩
    · intro left t ta h
      have key : ∀ (a : PResult Node), keeps_cursor ta a →
          keeps_cursor ta
            (match a with
              | none => none
              | some (Except.error e) => some (Except.error e)
              | some (Except.ok (r, tokens1)) =>
                match tokens1.current with
                | Except.error e => some (Except.error e)
                | Except.ok t1 =>
                  statements_loop n (some (Node.Statement left r)) t1 tokens1) := by
        intro a ha
        cases a with
        | none => trivial
        | some x =>
          cases x with
          | error e => exact ha
          | ok v =>
            obtain ⟨r, ta1⟩ := v
            obtain ⟨e1, r1⟩ := ha
            obtain ⟨t1, hc1, _⟩ := current_in_range ta1 r1
            simp only [hc1]
            exact keeps_cursor_of_eq e1 (ihl _ _ ta1 r1)
      rw [statements_loop]
      split_ifs
      all_goals first
        | exact ⟨rfl, h⟩
        | (simp only
           first
             | exact ⟨_, rfl⟩
             | (refine key _ ?_
                first
                  | exact ihi ta h
                  | exact ihw ta h
                  | exact declarations_keeps_cursor n ta h
                  | exact printing_keeps_cursor _ n ta h
                  | exact assignment_keeps_cursor n ta h))
    · intro ta h
      obtain ⟨t, hc, _⟩ := current_in_range ta h
      rw [statements, hc]
      exact ihl _ _ ta h

theorem get_root_keeps_cursor (fuel : Nat) (ta : TokenArray) (h : ta.in_range) :
    keeps_cursor ta (get_root fuel ta) := by
  rw [get_root]
  have hs := (statement_rules_keep_cursor fuel).2.2.2 ta h
  cases hx : statements fuel ta with
  | none => trivial
  | some x =>
    rw [hx] at hs
    cases x with
    | error e => exact hs
    | ok v =>
      obtain ⟨root, ta1⟩ := v
      obtain ⟨e1, r1⟩ := hs
      obtain ⟨t, hc, _⟩ := current_in_range ta1 r1
      simp only [hc]
      split_ifs
      · exact ⟨_, rfl⟩
      · exact ⟨e1, r1⟩

theorem Parser_in_range (ts : List Token) :
    (Parser.Parser (TokenArray.ofList ts)).in_range := by
  unfold Parser.Parser TokenArray.appendEndIfMissing TokenArray.ofList TokenArray.in_range
  cases h : ts.getLast? with
  | none => simp
  | some back =>
    have hne : ts ≠ [] := by
      intro hnil
      rw [hnil] at h
      simp at h
    have hpos : 0 < ts.length := List.length_pos.mpr hne
    simp only
    split_ifs
    · simp
    · exact hpos

theorem get_root_ok_end (fuel : Nat) (ta ta1 : TokenArray) (root : Option Node)
    (h : get_root fuel ta = some (Except.ok (root, ta1))) :
    statements fuel ta = some (Except.ok (root, ta1))
    ∧ ∃ t, ta1.current = Except.ok t ∧ t.type = TokenType.End := by
  rw [get_root] at h
  cases hs : statements fuel ta with
  | none => rw [hs] at h; simp at h
  | some x =>
    rw [hs] at h
    cases x with
    | error e => simp at h
    | ok v =>
      obtain ⟨r, ta2⟩ := v
      simp only at h
      cases hc : ta2.current with
      | error e => rw [hc] at h; simp at h
      | ok t =>
        rw [hc] at h
        simp only at h
        by_cases hk : t.type ≠ TokenType.End
        · rw [if_pos hk] at h
          simp at h
        · rw [if_neg hk] at h
          injection h with h
          injection h with h
          injection h with h1 h2
          subst h1
          subst h2
          exact ⟨rfl, t, hc, by simpa using hk⟩

/-! ## The body of the loop of `statements` -/

theorem statements_loop_step (fuel : Nat) (left : Option Node) (t : Token)
    (tokens : TokenArray) :
    statements_loop (fuel + 1) left t tokens
      = (if t.value ≠ "END" ∧ t.value ≠ "\x7d" then
          match statement_rule fuel t tokens with
          | none => none
          | some (Except.error e) => some (Except.error e)
          | some (Except.ok (r, tokens1)) =>
            match tokens1.current with
            | Except.error e => some (Except.error e)
            | Except.ok t1 => statements_loop fuel (some (Node.Statement left r)) t1 tokens1
        else some (Except.ok (left, tokens))) := by
  rw [statements_loop]
  rfl

theorem statement_rule_mono {f g : Nat} (hfg : f ≤ g) {t : Token} {ta : TokenArray}
    {r : Except Exn (Node × TokenArray)} (h : statement_rule f t ta = some r) :
    statement_rule g t ta = some r := by
  unfold statement_rule at h ⊢
  split_ifs at h ⊢
  · exact (statement_rules_mono f g hfg).1 _ _ h
  · exact (statement_rules_mono f g hfg).2.1 _ _ h
  · exact declarations_mono hfg h
  · exact printing_mono hfg h
  · exact printing_mono hfg h
  · exact assignment_mono hfg h
  · exact h

/-! ## C1: termination -/

/-- When the cursor cannot advance and sits on a token that is no literal or
identifier and has text `(`, the rules `factor`, `term` and `expr` exhaust every
recursion budget. -/
theorem expr_rules_diverge (tokens : TokenArray) (tok : Token)
    (hcur : tokens.current = Except.ok tok)
    (h1 : tok.type ≠ TokenType.IntLit) (h2 : tok.type ≠ TokenType.String)
    (h3 : tok.type ≠ TokenType.Var) (hv : tok.value = "(")
    (hnext : tokens.next = tokens) :
    ∀ fuel, factor fuel tokens = none ∧ term fuel tokens = none ∧ expr fuel tokens = none := by
  intro fuel
  induction fuel with
  | zero => simp [factor, term, expr]
  | succ n ih =>
    obtain ⟨hf, ht, he⟩ := ih
    refine ⟨?_, ?_, ?_⟩
    · simp [factor, hcur, h1, h2, h3, is_value, hv, hnext, he]
    · simp [term, hf]
    · simp [expr, ht]

/-- C1: on the tokens `[Var "x", Assign "=", End "("]` no recursion budget is
enough for `parseProgram` to return or throw: `factor` takes the `(` branch on
the last token, where `next` does not move the cursor, and re-enters `expr` on
the same token. -/
theorem C1_parseProgram_diverges_on_paren_sentinel :
    ∀ fuel, parseProgram fuel (TokenArray.ofList
      [Token.mk TokenType.Var "x" 1, Token.mk TokenType.Assign "=" 1,
       Token.mk TokenType.End "(" 1]) = none := by
  intro fuel
  have hd := expr_rules_diverge
    ⟨[Token.mk TokenType.Var "x" 1, Token.mk TokenType.Assign "=" 1,
       Token.mk TokenType.End "(" 1], 2⟩ (Token.mk TokenType.End "(" 1) rfl
    (by decide) (by decide) (by decide) rfl rfl
  have ha : ∀ f, assignment f ⟨[Token.mk TokenType.Var "x" 1, Token.mk TokenType.Assign "=" 1,
       Token.mk TokenType.End "(" 1], 0⟩ = none := by
    intro f
    have := (hd f).2.2
    simp [assignment, TokenArray.current, TokenArray.next, read_token_pass, SIZE_T_RANGE, this]
  match fuel with
  | 0 => rfl
  | 1 => rfl
  | f + 2 =>
    simp [parseProgram, Parser.Parser, TokenArray.appendEndIfMissing, TokenArray.ofList, get_root,
      statements, statements_loop, TokenArray.current, ha]

/-! ## C2: associativity -/

theorem interleave_length (ps : List (Token × Token)) :
    (interleave ps).length = 2 * ps.length := by
  induction ps with
  | nil => rfl
  | cons p ps ih => obtain ⟨op, f⟩ := p; simp [interleave, ih]; omega

theorem factor_leaf (pre post : List Token) (f u : Token) (hf : is_leaf_token f)
    (hsize : (pre ++ f :: u :: post).length < SIZE_T_RANGE) (fuel : Nat) :
    factor (fuel + 1) ⟨pre ++ f :: u :: post, pre.length⟩
      = some (Except.ok (leaf f, ⟨pre ++ f :: u :: post, pre.length + 1⟩)) := by
  simp only [factor, current_at, next_at pre post f u hsize, leaf]
  rcases hf with h | h | h <;> simp [h]

theorem expr_loop_fold (rest : List Token) (t : Token)
    (ht : t.value ≠ "+" ∧ t.value ≠ "-") :
    ∀ (pairs : List (Token × Token)) (pre : List Token) (acc : Node) (fuel : Nat),
      (∀ p ∈ pairs, (p.1.value = "+" ∨ p.1.value = "-") ∧ is_leaf_token p.2) →
      (pre ++ (interleave pairs ++ t :: rest)).length < SIZE_T_RANGE →
      pairs.length + 2 ≤ fuel →
      expr_loop fuel acc ⟨pre ++ (interleave pairs ++ t :: rest), pre.length⟩
        = some (Except.ok (left_fold acc pairs,
            ⟨pre ++ (interleave pairs ++ t :: rest), pre.length + 2 * pairs.length⟩)) := by
  intro pairs
  induction pairs with
  | nil =>
    intro pre acc fuel _ _ hfuel
    obtain ⟨n, rfl⟩ : ∃ n, fuel = n + 1 := ⟨fuel - 1, by simp at hfuel; omega⟩
    simp [expr_loop, interleave, current_at, ht.1, ht.2, left_fold]
  | cons p ps ih =>
    intro pre acc fuel hops hsize hfuel
    obtain ⟨op, f⟩ := p
    obtain ⟨n, rfl⟩ : ∃ n, fuel = n + 3 := ⟨fuel - 3, by simp at hfuel; omega⟩
    have hop := (hops (op, f) (List.mem_cons_self _ _)).1
    have hf := (hops (op, f) (List.mem_cons_self _ _)).2
    have hps : ∀ p ∈ ps, (p.1.value = "+" ∨ p.1.value = "-") ∧ is_leaf_token p.2 :=
      fun p hp => hops p (List.mem_cons_of_mem _ hp)
    obtain ⟨u, post, hu⟩ : ∃ u post, interleave ps ++ t :: rest = u :: post := by
      cases h : interleave ps ++ t :: rest with
      | nil => simp at h
      | cons u post => exact ⟨u, post, rfl⟩
    have hre : pre ++ (interleave ((op, f) :: ps) ++ t :: rest)
        = (pre ++ [op]) ++ f :: u :: post := by
      simp [interleave, hu]
    have hre2 : pre ++ (interleave ((op, f) :: ps) ++ t :: rest)
        = (pre ++ [op, f]) ++ (interleave ps ++ t :: rest) := by
      simp [interleave]
    have hsz1 : (pre ++ op :: f :: (interleave ps ++ t :: rest)).length < SIZE_T_RANGE := by
      simpa [interleave] using hsize
    have hterm : term (n + 2) ⟨pre ++ (interleave ((op, f) :: ps) ++ t :: rest), pre.length + 1⟩
        = some (Except.ok (leaf f,
            ⟨pre ++ (interleave ((op, f) :: ps) ++ t :: rest), pre.length + 2⟩)) := by
      have := factor_leaf (pre ++ [op]) post f u hf (by rw [← hre]; exact hsize) n
      simp only [List.length_append, List.length_singleton] at this
      rw [term, hre, this]
    have hih := ih (pre ++ [op, f]) (Node.BinOpNode acc op (leaf f)) (n + 2) hps
      (by rw [← hre2]; exact hsize) (by simp at hfuel ⊢; omega)
    rw [← hre2] at hih
    simp only [List.length_append, List.length_cons, List.length_nil] at hih
    have hnx : TokenArray.next ⟨pre ++ (interleave ((op, f) :: ps) ++ t :: rest), pre.length⟩
        = ⟨pre ++ (interleave ((op, f) :: ps) ++ t :: rest), pre.length + 1⟩ := by
      have := next_at pre (interleave ps ++ t :: rest) op f hsz1
      simpa [interleave] using this
    have hcur : TokenArray.current ⟨pre ++ (interleave ((op, f) :: ps) ++ t :: rest), pre.length⟩
        = Except.ok op := by
      have := current_at pre (f :: (interleave ps ++ t :: rest)) op
      simpa [interleave] using this
    rw [expr_loop, hcur]
    simp only [hop, if_true, hnx, hterm, left_fold]
    rw [hih]
    simp only [List.length_cons]
    congr 4
    omega

/-- C2: `expr` is left associative. On `f0 op1 f1 ... opn fn t`, with every
`fi` a literal or identifier token, every `opi` of text `+` or `-` and `t` of
another text, `expr` returns the left fold of the leaves and stops on `t`,
for every recursion budget of at least `n + 3`; and the tokens of `1 + 2 - 3`
give `BinOp(BinOp(1,+,2),-,3)` for every budget of at least 5, and
`BinOp(1,+,BinOp(2,-,3))` for none. -/
theorem C2_expr_left_associative :
    (∀ (pre rest : List Token) (f0 t : Token) (pairs : List (Token × Token)) (fuel : Nat),
      is_leaf_token f0 →
      (∀ p ∈ pairs, (p.1.value = "+" ∨ p.1.value = "-") ∧ is_leaf_token p.2) →
      (t.value ≠ "+" ∧ t.value ≠ "-") →
      (pre ++ f0 :: (interleave pairs ++ t :: rest)).length < SIZE_T_RANGE →
      pairs.length + 3 ≤ fuel →
      expr fuel ⟨pre ++ f0 :: (interleave pairs ++ t :: rest), pre.length⟩
        = some (Except.ok (left_fold (leaf f0) pairs,
            ⟨pre ++ f0 :: (interleave pairs ++ t :: rest),
              pre.length + 1 + 2 * pairs.length⟩)))
    ∧ (∀ fuel, 5 ≤ fuel →
      expr fuel (Parser.Parser (TokenArray.ofList tokens_1_plus_2_minus_3))
        = some (Except.ok
            (Node.BinOpNode
              (Node.BinOpNode (Node.NumberNode (Token.mk TokenType.IntLit "1" 1))
                (Token.mk TokenType.Arth "+" 1)
                (Node.NumberNode (Token.mk TokenType.IntLit "2" 1)))
              (Token.mk TokenType.Arth "-" 1)
              (Node.NumberNode (Token.mk TokenType.IntLit "3" 1)),
             ⟨tokens_1_plus_2_minus_3 ++ [Token.mk TokenType.End "END" 1], 5⟩)))
    ∧ (∀ fuel tokens1,
      expr fuel (Parser.Parser (TokenArray.ofList tokens_1_plus_2_minus_3))
        ≠ some (Except.ok
            (Node.BinOpNode (Node.NumberNode (Token.mk TokenType.IntLit "1" 1))
              (Token.mk TokenType.Arth "+" 1)
              (Node.BinOpNode (Node.NumberNode (Token.mk TokenType.IntLit "2" 1))
                (Token.mk TokenType.Arth "-" 1)
                (Node.NumberNode (Token.mk TokenType.IntLit "3" 1))),
             tokens1))) := by
  have h5 : expr 5 (Parser.Parser (TokenArray.ofList tokens_1_plus_2_minus_3))
      = some (Except.ok
          (Node.BinOpNode
            (Node.BinOpNode (Node.NumberNode (Token.mk TokenType.IntLit "1" 1))
              (Token.mk TokenType.Arth "+" 1)
              (Node.NumberNode (Token.mk TokenType.IntLit "2" 1)))
            (Token.mk TokenType.Arth "-" 1)
            (Node.NumberNode (Token.mk TokenType.IntLit "3" 1)),
           ⟨tokens_1_plus_2_minus_3 ++ [Token.mk TokenType.End "END" 1], 5⟩)) := rfl
  refine ⟨?_, fun fuel hfuel => expr_mono hfuel h5, ?_⟩
  · intro pre rest f0 t pairs fuel hf0 hops ht hsize hfuel
    obtain ⟨n, rfl⟩ : ∃ n, fuel = n + 3 := ⟨fuel - 3, by omega⟩
    obtain ⟨u, post, hu⟩ : ∃ u post, interleave pairs ++ t :: rest = u :: post := by
      cases h : interleave pairs ++ t :: rest with
      | nil => simp at h
      | cons u post => exact ⟨u, post, rfl⟩
    have hre : pre ++ f0 :: (interleave pairs ++ t :: rest)
        = (pre ++ [f0]) ++ (interleave pairs ++ t :: rest) := by simp
    have hterm : term (n + 2) ⟨pre ++ f0 :: (interleave pairs ++ t :: rest), pre.length⟩
        = some (Except.ok (leaf f0,
            ⟨pre ++ f0 :: (interleave pairs ++ t :: rest), pre.length + 1⟩)) := by
      have := factor_leaf pre post f0 u hf0 (by rw [← hu]; exact hsize) n
      rw [term, hu, this]
    have hloop := expr_loop_fold rest t ht pairs (pre ++ [f0]) (leaf f0) (n + 2) hops
      (by rw [← hre]; exact hsize) (by omega)
    rw [← hre] at hloop
    simp only [List.length_append, List.length_singleton] at hloop
    rw [expr, hterm]
    exact hloop
  · intro fuel tokens1 h
    have a := expr_mono (Nat.le_max_left fuel 5) h
    have b := expr_mono (Nat.le_max_right fuel 5) h5
    rw [a] at b
    injection b with b
    injection b with b
    injection b with b _
    injection b with b _ _
    cases b

/-- C2 at the tokens of `a + "s" - 3 ;`: three leaves, two operators. -/
theorem C2_expr_left_associative_witness :
    expr 5 ⟨[] ++ Token.mk TokenType.Var "a" 1 ::
        (interleave [(Token.mk TokenType.Arth "+" 1, Token.mk TokenType.String "s" 1),
                     (Token.mk TokenType.Arth "-" 1, Token.mk TokenType.IntLit "3" 1)]
          ++ Token.mk TokenType.Semicolon ";" 1 :: [Token.mk TokenType.End "END" 1]),
        ([] : List Token).length⟩
      = some (Except.ok
          (left_fold (leaf (Token.mk TokenType.Var "a" 1))
            [(Token.mk TokenType.Arth "+" 1, Token.mk TokenType.String "s" 1),
             (Token.mk TokenType.Arth "-" 1, Token.mk TokenType.IntLit "3" 1)],
           ⟨[] ++ Token.mk TokenType.Var "a" 1 ::
              (interleave [(Token.mk TokenType.Arth "+" 1, Token.mk TokenType.String "s" 1),
                           (Token.mk TokenType.Arth "-" 1, Token.mk TokenType.IntLit "3" 1)]
                ++ Token.mk TokenType.Semicolon ";" 1 :: [Token.mk TokenType.End "END" 1]),
            ([] : List Token).length + 1 + 2 * 2⟩)) :=
  C2_expr_left_associative.1 [] [Token.mk TokenType.End "END" 1]
    (Token.mk TokenType.Var "a" 1) (Token.mk TokenType.Semicolon ";" 1)
    [(Token.mk TokenType.Arth "+" 1, Token.mk TokenType.String "s" 1),
     (Token.mk TokenType.Arth "-" 1, Token.mk TokenType.IntLit "3" 1)] 5
    (Or.inr (Or.inr rfl))
    (by
      intro p hp
      simp only [List.mem_cons, List.mem_singleton, List.not_mem_nil, or_false] at hp
      rcases hp with rfl | rfl
      · exact ⟨Or.inl rfl, Or.inr (Or.inl rfl)⟩
      · exact ⟨Or.inr rfl, Or.inl rfl⟩)
    (by decide) (by decide) (by decide)

/-! ## C3: declarations -/

/-- C3: the shape of a declaration. On `T I = E ;` followed by at least one
more token, where `I` is an identifier token and `expr` parses `E` to `e`,
`declarations` returns `Declaration(T, I, e)` with the cursor just past the
`;`; on `T I ;` it returns `Declaration(T, I, no initializer)`; and the tokens
of `int x = 5;` give `Declaration(int, x, NumberLiteral 5)`, as the only
statement of the program, for every recursion budget of at least 5. -/
theorem C3_declaration_shape :
    (∀ (ts : List Token) (p q fuel : Nat) (T I : Token) (e : Node),
      ts[p]? = some T → ts[p + 1]? = some I → I.type = TokenType.Var →
      text_at ts (p + 2) "=" →
      expr fuel ⟨ts, p + 3⟩ = some (Except.ok (e, ⟨ts, q⟩)) →
      text_at ts q ";" → q + 1 < ts.length → ts.length < SIZE_T_RANGE →
      declarations fuel ⟨ts, p⟩
        = some (Except.ok (Node.Declaration T I (some e), ⟨ts, q + 1⟩)))
    ∧ (∀ (ts : List Token) (p fuel : Nat) (T I : Token),
      ts[p]? = some T → ts[p + 1]? = some I → I.type = TokenType.Var →
      text_at ts (p + 2) ";" → ts.length < SIZE_T_RANGE →
      declarations fuel ⟨ts, p⟩
        = some (Except.ok (Node.Declaration T I none, TokenArray.next ⟨ts, p + 2⟩)))
    ∧ (∀ fuel, 3 ≤ fuel →
      declarations fuel (Parser.Parser (TokenArray.ofList tokens_int_x_5_semi))
        = some (Except.ok
            (Node.Declaration (Token.mk TokenType.Int "int" 1) (Token.mk TokenType.Var "x" 1)
              (some (Node.NumberNode (Token.mk TokenType.IntLit "5" 1))),
             ⟨tokens_int_x_5_semi ++ [Token.mk TokenType.End "END" 1], 5⟩)))
    ∧ (∀ fuel, 5 ≤ fuel →
      parseProgram fuel (TokenArray.ofList tokens_int_x_5_semi)
        = some (Except.ok
            (some (Node.Statement none
              (Node.Declaration (Token.mk TokenType.Int "int" 1)
                (Token.mk TokenType.Var "x" 1)
                (some (Node.NumberNode (Token.mk TokenType.IntLit "5" 1))))),
             ⟨tokens_int_x_5_semi ++ [Token.mk TokenType.End "END" 1], 5⟩))) := by
  refine ⟨?_, ?_, fun fuel hfuel => declarations_mono (f := 3) hfuel rfl,
    fun fuel hfuel => parseProgram_mono (f := 5) hfuel rfl⟩
  · intro ts p q fuel T I e hT hI hIv heq hexpr hsemi hq hsize
    obtain ⟨teq, hteq, hteqv⟩ := heq
    have h1 := lt_length_of_getElem? hI
    have h2 := lt_length_of_getElem? hteq
    have h3 : p + 3 < ts.length := expr_ok_in_range fuel ⟨ts, p + 3⟩ _ hexpr
    simp [declarations, current_idx ts p T hT, next_idx ts p h1 hsize,
      current_idx ts (p + 1) I hI, next_idx ts (p + 1) h2 hsize,
      current_idx ts (p + 2) teq hteq, next_idx ts (p + 2) h3 hsize, hexpr,
      read_token_pass_ok ts q ";" "Missing ;" hsemi hq hsize, hIv, is_value, hteqv]
  · intro ts p fuel T I hT hI hIv hsemi hsize
    obtain ⟨ts', hts, htsv⟩ := hsemi
    have h1 := lt_length_of_getElem? hI
    have h2 := lt_length_of_getElem? hts
    simp [declarations, current_idx ts p T hT, next_idx ts p h1 hsize,
      current_idx ts (p + 1) I hI, next_idx ts (p + 1) h2 hsize,
      current_idx ts (p + 2) ts' hts, read_token_pass, hIv, is_value, htsv]

/-- C3 at the tokens of `string s = "a" + b ; print` (the declaration rule
returns the initialised declaration and stops on `print`) and at the tokens of
`int x ;`. -/
theorem C3_declaration_shape_witness :
    declarations 4 ⟨tokens_string_decl, 0⟩
      = some (Except.ok
          (Node.Declaration (Token.mk TokenType.StringKw "string" 1)
            (Token.mk TokenType.Var "s" 1)
            (some (Node.BinOpNode (Node.StringNode (Token.mk TokenType.String "a" 1))
              (Token.mk TokenType.Arth "+" 1)
              (Node.IdentifierNode (Token.mk TokenType.Var "b" 1)))),
           ⟨tokens_string_decl, 6 + 1⟩))
    ∧ declarations 0 ⟨tokens_int_x_semi, 0⟩
      = some (Except.ok
          (Node.Declaration (Token.mk TokenType.Int "int" 1) (Token.mk TokenType.Var "x" 1)
            none,
           TokenArray.next ⟨tokens_int_x_semi, 0 + 2⟩)) :=
  ⟨C3_declaration_shape.1 tokens_string_decl 0 6 4
      (Token.mk TokenType.StringKw "string" 1) (Token.mk TokenType.Var "s" 1)
      (Node.BinOpNode (Node.StringNode (Token.mk TokenType.String "a" 1))
        (Token.mk TokenType.Arth "+" 1) (Node.IdentifierNode (Token.mk TokenType.Var "b" 1)))
      rfl rfl rfl ⟨_, rfl, rfl⟩ rfl ⟨_, rfl, rfl⟩ (by decide) (by decide),
    C3_declaration_shape.2.1 tokens_int_x_semi 0 0
      (Token.mk TokenType.Int "int" 1) (Token.mk TokenType.Var "x" 1)
      rfl rfl rfl ⟨_, rfl, rfl⟩ (by decide)⟩

/-! ## C4: if / else -/

/-- C4: the shape of an if statement. On `if ( C ) { S1 } else { S2 }`, where
`condition` parses `C` to `c` and `statements` parses the non-empty blocks `S1`
and `S2` to the chains `n1` and `n2`, `if_statement` returns the one node
`IfStatement(c, [n1], [n2])`, for every recursion budget that is enough for
the three parts; when the token right after the then-block's closing brace has
a text other than `else`, it returns `IfStatement(c, [n1], [])` and reads no
further; and the tokens of `if (a < b) { print(a); } else { print(b); }` give
a program whose only statement is an IfStatement with one chain in each
branch. -/
theorem C4_if_else_shape :
    (∀ (ts : List Token) (p q r s f1 f2 f3 fuel : Nat) (c n1 n2 : Node),
      text_at ts (p + 1) "(" →
      condition f1 ⟨ts, p + 2⟩ = some (Except.ok (c, ⟨ts, q⟩)) →
      text_at ts q ")" → text_at ts (q + 1) "\x7b" →
      statements f2 ⟨ts, q + 2⟩ = some (Except.ok (some n1, ⟨ts, r⟩)) →
      text_at ts r "\x7d" → text_at ts (r + 1) "else" → text_at ts (r + 2) "\x7b" →
      statements f3 ⟨ts, r + 3⟩ = some (Except.ok (some n2, ⟨ts, s⟩)) →
      text_at ts s "\x7d" → ts.length < SIZE_T_RANGE →
      f1 ≤ fuel → f2 ≤ fuel → f3 ≤ fuel →
      if_statement (fuel + 1) ⟨ts, p⟩
        = some (Except.ok (Node.IfStatement c [n1] [n2], TokenArray.next ⟨ts, s⟩)))
    ∧ (∀ (ts : List Token) (p q r f1 f2 fuel : Nat) (c n1 : Node),
      text_at ts (p + 1) "(" →
      condition f1 ⟨ts, p + 2⟩ = some (Except.ok (c, ⟨ts, q⟩)) →
      text_at ts q ")" → text_at ts (q + 1) "\x7b" →
      statements f2 ⟨ts, q + 2⟩ = some (Except.ok (some n1, ⟨ts, r⟩)) →
      text_at ts r "\x7d" → (∀ t, ts[r + 1]? = some t → t.value ≠ "else") →
      ts.length < SIZE_T_RANGE →
      f1 ≤ fuel → f2 ≤ fuel →
      if_statement (fuel + 1) ⟨ts, p⟩
        = some (Except.ok (Node.IfStatement c [n1] [], TokenArray.next ⟨ts, r⟩)))
    ∧ (∀ fuel, 10 ≤ fuel →
      parseProgram fuel (TokenArray.ofList tokens_if_else)
      = some (Except.ok
          (some (Node.Statement none
            (Node.IfStatement
              (Node.Condition (Node.IdentifierNode (Token.mk TokenType.Var "a" 1))
                (Token.mk TokenType.Comparison "<" 1)
                (Node.IdentifierNode (Token.mk TokenType.Var "b" 1)))
              [Node.Statement none
                (Node.PrintStatement (Token.mk TokenType.Print "print" 1)
                  (Node.IdentifierNode (Token.mk TokenType.Var "a" 1)))]
              [Node.Statement none
                (Node.PrintStatement (Token.mk TokenType.Print "print" 1)
                  (Node.IdentifierNode (Token.mk TokenType.Var "b" 1)))])),
           ⟨tokens_if_else ++ [Token.mk TokenType.End "END" 1], 21⟩))) := by
  refine ⟨?_, ?_, fun fuel hfuel => parseProgram_mono (f := 10) hfuel rfl⟩
  · intro ts p q r s f1 f2 f3 fuel c n1 n2 hlp hcond hrp hlb hs1 hrb hel hlb2 hs2 hrb2 hsize
      hf1 hf2 hf3
    replace hcond := condition_mono hf1 hcond
    replace hs1 := statements_mono hf2 hs1
    replace hs2 := statements_mono hf3 hs2
    have i1 := text_at_lt hlp
    have i2 : p + 2 < ts.length := condition_ok_in_range fuel ⟨ts, p + 2⟩ _ hcond
    have i3 := text_at_lt hlb
    have i4 : q + 2 < ts.length := statements_ok_in_range fuel ⟨ts, q + 2⟩ _ hs1
    have i5 := text_at_lt hel
    have i6 := text_at_lt hlb2
    have i7 : r + 3 < ts.length := statements_ok_in_range fuel ⟨ts, r + 3⟩ _ hs2
    obtain ⟨te, hte, htev⟩ := hel
    simp [if_statement, next_idx ts p i1 hsize,
      read_token_pass_ok ts (p + 1) "(" _ hlp i2 hsize, hcond,
      read_token_pass_ok ts q ")" _ hrp i3 hsize,
      read_token_pass_ok ts (q + 1) "\x7b" _ hlb i4 hsize, hs1,
      read_token_pass_ok ts r "\x7d" _ hrb i5 hsize,
      current_idx ts (r + 1) te hte, is_value, htev, next_idx ts (r + 1) i6 hsize,
      read_token_pass_ok ts (r + 2) "\x7b" _ hlb2 i7 hsize, hs2, push_back_if,
      read_token_pass_match ts s "\x7d" _ hrb2]
  · intro ts p q r f1 f2 fuel c n1 hlp hcond hrp hlb hs1 hrb hne hsize hf1 hf2
    replace hcond := condition_mono hf1 hcond
    replace hs1 := statements_mono hf2 hs1
    have i1 := text_at_lt hlp
    have i2 : p + 2 < ts.length := condition_ok_in_range fuel ⟨ts, p + 2⟩ _ hcond
    have i3 := text_at_lt hlb
    have i4 : q + 2 < ts.length := statements_ok_in_range fuel ⟨ts, q + 2⟩ _ hs1
    obtain ⟨t, ht, htv⟩ := current_after_close ts r hsize hrb hne
    simp [if_statement, next_idx ts p i1 hsize,
      read_token_pass_ok ts (p + 1) "(" _ hlp i2 hsize, hcond,
      read_token_pass_ok ts q ")" _ hrp i3 hsize,
      read_token_pass_ok ts (q + 1) "\x7b" _ hlb i4 hsize, hs1,
      read_token_pass_match ts r "\x7d" _ hrb, ht, is_value, htv, push_back_if]

/-- C4 at the tokens of `if (a < b) { print(a); } else { print(b); }` and at
the tokens of `if (a < b) { print(a); }`, each followed by the end-of-input
token. -/
theorem C4_if_else_shape_witness :
    if_statement (6 + 1) ⟨tokens_if_else ++ [Token.mk TokenType.End "END" 1], 0⟩
      = some (Except.ok
          (Node.IfStatement
            (Node.Condition (Node.IdentifierNode (Token.mk TokenType.Var "a" 1))
              (Token.mk TokenType.Comparison "<" 1)
              (Node.IdentifierNode (Token.mk TokenType.Var "b" 1)))
            [Node.Statement none
              (Node.PrintStatement (Token.mk TokenType.Print "print" 1)
                (Node.IdentifierNode (Token.mk TokenType.Var "a" 1)))]
            [Node.Statement none
              (Node.PrintStatement (Token.mk TokenType.Print "print" 1)
                (Node.IdentifierNode (Token.mk TokenType.Var "b" 1)))],
           TokenArray.next ⟨tokens_if_else ++ [Token.mk TokenType.End "END" 1], 20⟩))
    ∧ if_statement (5 + 1) ⟨tokens_if_only, 0⟩
      = some (Except.ok
          (Node.IfStatement
            (Node.Condition (Node.IdentifierNode (Token.mk TokenType.Var "a" 1))
              (Token.mk TokenType.Comparison "<" 1)
              (Node.IdentifierNode (Token.mk TokenType.Var "b" 1)))
            [Node.Statement none
              (Node.PrintStatement (Token.mk TokenType.Print "print" 1)
                (Node.IdentifierNode (Token.mk TokenType.Var "a" 1)))]
            [],
           TokenArray.next ⟨tokens_if_only, 12⟩)) :=
  ⟨C4_if_else_shape.1 (tokens_if_else ++ [Token.mk TokenType.End "END" 1]) 0 5 12 20 3 5 5 6
      (Node.Condition (Node.IdentifierNode (Token.mk TokenType.Var "a" 1))
        (Token.mk TokenType.Comparison "<" 1)
        (Node.IdentifierNode (Token.mk TokenType.Var "b" 1)))
      (Node.Statement none
        (Node.PrintStatement (Token.mk TokenType.Print "print" 1)
          (Node.IdentifierNode (Token.mk TokenType.Var "a" 1))))
      (Node.Statement none
        (Node.PrintStatement (Token.mk TokenType.Print "print" 1)
          (Node.IdentifierNode (Token.mk TokenType.Var "b" 1))))
      ⟨_, rfl, rfl⟩ rfl ⟨_, rfl, rfl⟩ ⟨_, rfl, rfl⟩ rfl ⟨_, rfl, rfl⟩ ⟨_, rfl, rfl⟩
      ⟨_, rfl, rfl⟩ rfl ⟨_, rfl, rfl⟩ (by decide) (by decide) (by decide) (by decide),
    C4_if_else_shape.2.1 tokens_if_only 0 5 12 3 5 5
      (Node.Condition (Node.IdentifierNode (Token.mk TokenType.Var "a" 1))
        (Token.mk TokenType.Comparison "<" 1)
        (Node.IdentifierNode (Token.mk TokenType.Var "b" 1)))
      (Node.Statement none
        (Node.PrintStatement (Token.mk TokenType.Print "print" 1)
          (Node.IdentifierNode (Token.mk TokenType.Var "a" 1))))
      ⟨_, rfl, rfl⟩ rfl ⟨_, rfl, rfl⟩ ⟨_, rfl, rfl⟩ rfl ⟨_, rfl, rfl⟩
      (by intro t h; cases h; decide) (by decide) (by decide) (by decide)⟩

/-! ## C5: the missing terminator -/

/-- On a token of text `}` the rule `statements` returns the null chain and
leaves the cursor where it is. -/
theorem statements_at_close (ts : List Token) (i fuel : Nat) (h : text_at ts i "\x7d") :
    statements (fuel + 2) ⟨ts, i⟩ = some (Except.ok (none, ⟨ts, i⟩)) := by
  obtain ⟨t, ht, hv⟩ := h
  simp [statements, statements_loop, current_idx ts i t ht, hv]

/-- C6: an empty block is legal. On `while ( C ) { }` and on `if ( C ) { }`
not followed by a token of text `else`, where `condition` parses `C` to `c`,
the rules return `WhileStatement(c, [])` and `IfStatement(c, [], [])`; and the
tokens of `while (a < b) { }` give a program whose only statement is a
WhileStatement with an empty body. -/
theorem C6_empty_block_legal :
    (∀ (ts : List Token) (p q f1 fuel : Nat) (c : Node),
      text_at ts (p + 1) "(" →
      condition f1 ⟨ts, p + 2⟩ = some (Except.ok (c, ⟨ts, q⟩)) →
      text_at ts q ")" → text_at ts (q + 1) "\x7b" → text_at ts (q + 2) "\x7d" →
      ts.length < SIZE_T_RANGE → f1 ≤ fuel →
      while_statement (fuel + 1) ⟨ts, p⟩
        = some (Except.ok (Node.WhileStatement c [], TokenArray.next ⟨ts, q + 2⟩)))
    ∧ (∀ (ts : List Token) (p q f1 fuel : Nat) (c : Node),
      text_at ts (p + 1) "(" →
      condition f1 ⟨ts, p + 2⟩ = some (Except.ok (c, ⟨ts, q⟩)) →
      text_at ts q ")" → text_at ts (q + 1) "\x7b" → text_at ts (q + 2) "\x7d" →
      (∀ t, ts[q + 3]? = some t → t.value ≠ "else") →
      ts.length < SIZE_T_RANGE → f1 ≤ fuel →
      if_statement (fuel + 1) ⟨ts, p⟩
        = some (Except.ok (Node.IfStatement c [] [], TokenArray.next ⟨ts, q + 2⟩)))
    ∧ (∀ fuel, 6 ≤ fuel →
      parseProgram fuel (TokenArray.ofList tokens_while_empty)
      = some (Except.ok
          (some (Node.Statement none
            (Node.WhileStatement
              (Node.Condition (Node.IdentifierNode (Token.mk TokenType.Var "a" 1))
                (Token.mk TokenType.Comparison "<" 1)
                (Node.IdentifierNode (Token.mk TokenType.Var "b" 1)))
              [])),
           ⟨tokens_while_empty ++ [Token.mk TokenType.End "END" 1], 8⟩))) := by
  refine ⟨?_, ?_, fun fuel hfuel => parseProgram_mono (f := 6) hfuel rfl⟩
  · intro ts p q f1 fuel c hlp hcond hrp hlb hrb hsize hf1
    replace hcond := condition_mono hf1 hcond
    obtain ⟨n, rfl⟩ := condition_ok_fuel fuel _ _ hcond
    have i1 := text_at_lt hlp
    have i2 : p + 2 < ts.length := condition_ok_in_range _ ⟨ts, p + 2⟩ _ hcond
    have i3 := text_at_lt hlb
    have i4 := text_at_lt hrb
    simp [while_statement, next_idx ts p i1 hsize,
      read_token_pass_ok ts (p + 1) "(" _ hlp i2 hsize, hcond,
      read_token_pass_ok ts q ")" _ hrp i3 hsize,
      read_token_pass_ok ts (q + 1) "\x7b" _ hlb i4 hsize,
      statements_at_close ts (q + 2) n hrb,
      read_token_pass_match ts (q + 2) "\x7d" _ hrb, push_back_if]
  · intro ts p q f1 fuel c hlp hcond hrp hlb hrb hne hsize hf1
    replace hcond := condition_mono hf1 hcond
    obtain ⟨n, rfl⟩ := condition_ok_fuel fuel _ _ hcond
    have i1 := text_at_lt hlp
    have i2 : p + 2 < ts.length := condition_ok_in_range _ ⟨ts, p + 2⟩ _ hcond
    have i3 := text_at_lt hlb
    have i4 := text_at_lt hrb
    obtain ⟨t, ht, htv⟩ := current_after_close ts (q + 2) hsize hrb hne
    simp [if_statement, next_idx ts p i1 hsize,
      read_token_pass_ok ts (p + 1) "(" _ hlp i2 hsize, hcond,
      read_token_pass_ok ts q ")" _ hrp i3 hsize,
      read_token_pass_ok ts (q + 1) "\x7b" _ hlb i4 hsize,
      statements_at_close ts (q + 2) n hrb,
      read_token_pass_match ts (q + 2) "\x7d" _ hrb, ht, is_value, htv, push_back_if]

/-- C6 at the tokens of `while (a < b) { }` and of `if (a < b) { }`, each
followed by the end-of-input token. -/
theorem C6_empty_block_legal_witness :
    while_statement (3 + 1) ⟨tokens_while_empty ++ [Token.mk TokenType.End "END" 1], 0⟩
      = some (Except.ok
          (Node.WhileStatement
            (Node.Condition (Node.IdentifierNode (Token.mk TokenType.Var "a" 1))
              (Token.mk TokenType.Comparison "<" 1)
              (Node.IdentifierNode (Token.mk TokenType.Var "b" 1)))
            [],
           TokenArray.next
             ⟨tokens_while_empty ++ [Token.mk TokenType.End "END" 1], 5 + 2⟩))
    ∧ if_statement (3 + 1) ⟨tokens_if_empty, 0⟩
      = some (Except.ok
          (Node.IfStatement
            (Node.Condition (Node.IdentifierNode (Token.mk TokenType.Var "a" 1))
              (Token.mk TokenType.Comparison "<" 1)
              (Node.IdentifierNode (Token.mk TokenType.Var "b" 1)))
            [] [],
           TokenArray.next ⟨tokens_if_empty, 5 + 2⟩)) :=
  ⟨C6_empty_block_legal.1 (tokens_while_empty ++ [Token.mk TokenType.End "END" 1]) 0 5 3 3
      (Node.Condition (Node.IdentifierNode (Token.mk TokenType.Var "a" 1))
        (Token.mk TokenType.Comparison "<" 1)
        (Node.IdentifierNode (Token.mk TokenType.Var "b" 1)))
      ⟨_, rfl, rfl⟩ rfl ⟨_, rfl, rfl⟩ ⟨_, rfl, rfl⟩ ⟨_, rfl, rfl⟩ (by decide) (by decide),
    C6_empty_block_legal.2.1 tokens_if_empty 0 5 3 3
      (Node.Condition (Node.IdentifierNode (Token.mk TokenType.Var "a" 1))
        (Token.mk TokenType.Comparison "<" 1)
        (Node.IdentifierNode (Token.mk TokenType.Var "b" 1)))
      ⟨_, rfl, rfl⟩ rfl ⟨_, rfl, rfl⟩ ⟨_, rfl, rfl⟩ ⟨_, rfl, rfl⟩
      (by intro t h; cases h; decide) (by decide) (by decide)⟩

/-! ## C7: unknown statement start -/

/-- C7: an unknown statement start fails. When the first token has a kind
other than if, while, int, string, print, prints, identifier and end-of-input,
`parseProgram` throws, whatever follows and whatever the token's text: the
error of the end-of-program check when the text is `END` or a closing brace
(the loop of `statements` stops on it), the error of the dispatch otherwise. -/
theorem C7_unknown_statement_start_fails (T : Token) (rest : List Token) (fuel : Nat)
    (hk : ¬ starts_statement_or_end T.type) (hfuel : 2 ≤ fuel) :
    parseProgram fuel (TokenArray.ofList (T :: rest))
      = some (Except.error (Exn.runtime_error
          (if T.value = "END" ∨ T.value = "\x7d" then "Syntax Error at end of program"
           else "Syntax Error in line " ++ toString T.line))) := by
  obtain ⟨n, rfl⟩ : ∃ n, fuel = n + 2 := ⟨fuel - 2, by omega⟩
  simp only [starts_statement_or_end, not_or] at hk
  obtain ⟨k1, k2, k3, k4, k5, k6, k7, k8⟩ := hk
  have hcur := Parser_current_cons T rest
  by_cases hv : T.value = "END" ∨ T.value = "\x7d"
  · have hv2 : ¬ (T.value ≠ "END" ∧ T.value ≠ "\x7d") := by
      rcases hv with h | h <;> simp [h]
    simp [parseProgram, get_root, statements, statements_loop, hcur, hv, hv2, k8]
  · have hv2 : T.value ≠ "END" ∧ T.value ≠ "\x7d" := by
      constructor
      · exact fun h => hv (Or.inl h)
      · exact fun h => hv (Or.inr h)
    simp [parseProgram, get_root, statements, statements_loop, hcur, hv, hv2,
      k1, k2, k3, k4, k5, k6, k7]

/-- C7 at the single token `+` of kind arithmetic on line 1. -/
theorem C7_unknown_statement_start_fails_witness :
    parseProgram 2 (TokenArray.ofList [Token.mk TokenType.Arth "+" 1])
      = some (Except.error (Exn.runtime_error
          (if (Token.mk TokenType.Arth "+" 1).value = "END"
              ∨ (Token.mk TokenType.Arth "+" 1).value = "\x7d"
           then "Syntax Error at end of program"
           else "Syntax Error in line " ++ toString (Token.mk TokenType.Arth "+" 1).line))) :=
  C7_unknown_statement_start_fails (Token.mk TokenType.Arth "+" 1) [] 2
    (by unfold starts_statement_or_end; decide) (by decide)

/-! ## C8, C9: what stops the loop of `statements` -/

/-- C8: the loop of `statements` looks at the text before the kind. The
program `END = 1 ;`, whose first token is an identifier of text `END`, is
rejected by the end-of-program check, and so is the one whose identifier has
the text of a closing brace; an identifier of any other text gives a program
whose only statement is the assignment. -/
theorem C8_identifier_named_END_rejected :
    (∀ fuel l, parseProgram (fuel + 2) (TokenArray.ofList
        [Token.mk TokenType.Var "END" l, Token.mk TokenType.Assign "=" l,
         Token.mk TokenType.IntLit "1" l, Token.mk TokenType.Semicolon ";" l,
         Token.mk TokenType.End "END" l])
      = some (Except.error (Exn.runtime_error "Syntax Error at end of program")))
    ∧ (∀ fuel l, parseProgram (fuel + 2) (TokenArray.ofList
        [Token.mk TokenType.Var "\x7d" l, Token.mk TokenType.Assign "=" l,
         Token.mk TokenType.IntLit "1" l, Token.mk TokenType.Semicolon ";" l,
         Token.mk TokenType.End "END" l])
      = some (Except.error (Exn.runtime_error "Syntax Error at end of program")))
    ∧ (∀ (I : Token) (fuel : Nat) (l : Int),
        I.type = TokenType.Var → I.value ≠ "END" → I.value ≠ "\x7d" →
        parseProgram (fuel + 5) (TokenArray.ofList
          [I, Token.mk TokenType.Assign "=" l, Token.mk TokenType.IntLit "1" l,
           Token.mk TokenType.Semicolon ";" l, Token.mk TokenType.End "END" l])
        = some (Except.ok
            (some (Node.Statement none
              (Node.Assignment I (Node.NumberNode (Token.mk TokenType.IntLit "1" l)))),
             ⟨[I, Token.mk TokenType.Assign "=" l, Token.mk TokenType.IntLit "1" l,
               Token.mk TokenType.Semicolon ";" l, Token.mk TokenType.End "END" l], 4⟩))) := by
  refine ⟨?_, ?_, ?_⟩
  · intro fuel l
    simp [parseProgram, Parser.Parser, TokenArray.appendEndIfMissing, TokenArray.ofList,
      get_root, statements, statements_loop, TokenArray.current]
  · intro fuel l
    simp [parseProgram, Parser.Parser, TokenArray.appendEndIfMissing, TokenArray.ofList,
      get_root, statements, statements_loop, TokenArray.current]
  · intro I fuel l hk h1 h2
    simp [parseProgram, Parser.Parser, TokenArray.appendEndIfMissing, TokenArray.ofList,
      get_root, statements, statements_loop, TokenArray.current, TokenArray.next,
      SIZE_T_RANGE, assignment, read_token_pass, expr, term, factor, expr_loop, hk, h1, h2]

/-- C8 at the identifier `x` on line 1. -/
theorem C8_identifier_named_END_rejected_witness :
    parseProgram (0 + 5) (TokenArray.ofList
        [Token.mk TokenType.Var "x" 1, Token.mk TokenType.Assign "=" 1,
         Token.mk TokenType.IntLit "1" 1, Token.mk TokenType.Semicolon ";" 1,
         Token.mk TokenType.End "END" 1])
      = some (Except.ok
          (some (Node.Statement none
            (Node.Assignment (Token.mk TokenType.Var "x" 1)
              (Node.NumberNode (Token.mk TokenType.IntLit "1" 1)))),
           ⟨[Token.mk TokenType.Var "x" 1, Token.mk TokenType.Assign "=" 1,
             Token.mk TokenType.IntLit "1" 1, Token.mk TokenType.Semicolon ";" 1,
             Token.mk TokenType.End "END" 1], 4⟩)) :=
  C8_identifier_named_END_rejected.2.2 (Token.mk TokenType.Var "x" 1) 0 1 rfl
    (by decide) (by decide)

/-- C9: the loop of `statements` recognises the end of input by the text `END`,
not by the kind. On the default-constructed token (kind end-of-input, empty
text, line 0) `statements` throws, and so does `parseProgram` on the sequence
made of that token alone; on an end-of-input token of any other text than `END`
and the closing brace `statements` throws the dispatch error; on a token of
text `END` or of the text of a closing brace it returns the null chain without
moving the cursor, and `parseProgram` on one end-of-input token of text `END`
returns the null root. -/
theorem C9_statements_stops_on_text_not_kind :
    (∀ fuel, statements (fuel + 2) ⟨[Token.default], 0⟩
      = some (Except.error (Exn.runtime_error "Syntax Error in line 0")))
    ∧ (∀ fuel, parseProgram (fuel + 2) (TokenArray.ofList [Token.default])
      = some (Except.error (Exn.runtime_error "Syntax Error in line 0")))
    ∧ (∀ (ts : List Token) (p fuel : Nat) (t : Token),
        ts[p]? = some t → t.type = TokenType.End → t.value ≠ "END" → t.value ≠ "\x7d" →
        statements (fuel + 2) ⟨ts, p⟩
          = some (Except.error
              (Exn.runtime_error ("Syntax Error in line " ++ toString t.line))))
    ∧ (∀ (ts : List Token) (p fuel : Nat) (t : Token),
        ts[p]? = some t → t.value = "END" ∨ t.value = "\x7d" →
        statements (fuel + 2) ⟨ts, p⟩ = some (Except.ok (none, ⟨ts, p⟩)))
    ∧ (∀ fuel l, parseProgram (fuel + 2) (TokenArray.ofList [Token.mk TokenType.End "END" l])
      = some (Except.ok (none, ⟨[Token.mk TokenType.End "END" l], 0⟩))) := by
  refine ⟨?_, ?_, ?_, ?_, ?_⟩
  · intro fuel
    simp [statements, statements_loop, TokenArray.current, Token.default]
    rfl
  · intro fuel
    simp [parseProgram, Parser.Parser, TokenArray.appendEndIfMissing, TokenArray.ofList,
      get_root, statements, statements_loop, TokenArray.current, Token.default]
    rfl
  · intro ts p fuel t ht hk h1 h2
    simp [statements, statements_loop, current_idx ts p t ht, hk, h1, h2]
  · intro ts p fuel t ht hv
    have hv2 : ¬ (t.value ≠ "END" ∧ t.value ≠ "\x7d") := by
      rcases hv with h | h <;> simp [h]
    simp [statements, statements_loop, current_idx ts p t ht, hv2]
  · intro fuel l
    simp [parseProgram, Parser.Parser, TokenArray.appendEndIfMissing, TokenArray.ofList,
      get_root, statements, statements_loop, TokenArray.current]

/-- C9 at an end-of-input token of text `EOF` on line 7 and at one of text
`END`. -/
theorem C9_statements_stops_on_text_not_kind_witness :
    statements (0 + 2) ⟨[Token.mk TokenType.End "EOF" 7], 0⟩
      = some (Except.error (Exn.runtime_error
          ("Syntax Error in line " ++ toString (Token.mk TokenType.End "EOF" 7).line)))
    ∧ statements (0 + 2) ⟨[Token.mk TokenType.End "END" 7], 0⟩
      = some (Except.ok (none, ⟨[Token.mk TokenType.End "END" 7], 0⟩)) :=
  ⟨C9_statements_stops_on_text_not_kind.2.2.1 [Token.mk TokenType.End "EOF" 7] 0 0
      (Token.mk TokenType.End "EOF" 7) rfl rfl (by decide) (by decide),
    C9_statements_stops_on_text_not_kind.2.2.2.1 [Token.mk TokenType.End "END" 7] 0 0
      (Token.mk TokenType.End "END" 7) rfl (Or.inl rfl)⟩

/-! ## C10: the line in the message -/

/-- C10: the end-of-program error carries no line. For a stray closing brace
at top level, on whatever line, `parseProgram` throws the fixed message
`Syntax Error at end of program`; with the brace on line 1 the message does
not contain the numeral 1. -/
theorem C10_end_of_program_error_has_no_line :
    (∀ fuel l, parseProgram (fuel + 2) (TokenArray.ofList [Token.mk TokenType.R2 "\x7d" l])
      = some (Except.error (Exn.runtime_error "Syntax Error at end of program")))
    ∧ ¬ mentions_line "Syntax Error at end of program" 1 := by
  refine ⟨?_, ?_⟩
  · intro fuel l
    simp [parseProgram, Parser.Parser, TokenArray.appendEndIfMissing, TokenArray.ofList,
      get_root, statements, statements_loop, TokenArray.current]
  · unfold mentions_line
    decide

/-! ## C11: no trailing tokens -/

/-- C11: no trailing tokens survive a successful parse. When the last token of
the input is its only token of kind end-of-input and `parseProgram` returns a
root, the parser's token sequence is the input and its cursor is at the last
index; and whenever the top-level `statements` returns with the cursor on a
token that is not of kind end-of-input, `get_root` throws the end-of-program
error. -/
theorem C11_no_trailing_tokens :
    (∀ (ts : List Token) (last : Token) (fuel : Nat) (root : Option Node)
        (ta1 : TokenArray),
      ts.getLast? = some last → last.type = TokenType.End →
      (∀ i t, ts[i]? = some t → t.type = TokenType.End → i + 1 = ts.length) →
      parseProgram fuel (TokenArray.ofList ts) = some (Except.ok (root, ta1)) →
      ta1.tokens = ts ∧ ta1.pos + 1 = ts.length)
    ∧ (∀ (fuel : Nat) (ta ta1 : TokenArray) (root : Option Node) (t : Token),
      statements fuel ta = some (Except.ok (root, ta1)) →
      ta1.current = Except.ok t → t.type ≠ TokenType.End →
      get_root fuel ta
        = some (Except.error (Exn.runtime_error "Syntax Error at end of program"))) := by
  refine ⟨?_, ?_⟩
  · intro ts last fuel root ta1 hlast hk huniq h
    have hP : Parser.Parser (TokenArray.ofList ts) = ⟨ts, 0⟩ := by
      simp [Parser.Parser, TokenArray.appendEndIfMissing, TokenArray.ofList, hlast, hk]
    have hr : (⟨ts, 0⟩ : TokenArray).in_range := by
      rw [← hP]
      exact Parser_in_range ts
    rw [parseProgram, hP] at h
    have hkeep := get_root_keeps_cursor fuel ⟨ts, 0⟩ hr
    rw [h] at hkeep
    obtain ⟨htok, hin⟩ := hkeep
    obtain ⟨_, t, hc, hte⟩ := get_root_ok_end fuel _ _ _ h
    obtain ⟨t2, hc2, hget⟩ := current_in_range ta1 hin
    rw [hc] at hc2
    have : t = t2 := by
      injection hc2
    subst this
    have htok2 : ta1.tokens = ts := htok
    rw [htok2] at hget
    exact ⟨htok2, huniq _ _ hget hte⟩
  · intro fuel ta ta1 root t hs hc hk
    simp [get_root, hs, hc, hk]

/-- C11 at the tokens of `int x ;` with the end-of-input token: the cursor
ends on index 3, the last; and at the tokens of `int x ;` followed by a stray
closing brace. -/
theorem C11_no_trailing_tokens_witness :
    ((TokenArray.mk tokens_int_x_semi 3).tokens = tokens_int_x_semi
      ∧ (TokenArray.mk tokens_int_x_semi 3).pos + 1 = tokens_int_x_semi.length)
    ∧ get_root 3
        ⟨[Token.mk TokenType.Int "int" 1, Token.mk TokenType.Var "x" 1,
          Token.mk TokenType.Semicolon ";" 1, Token.mk TokenType.R2 "\x7d" 1,
          Token.mk TokenType.End "END" 1], 0⟩
      = some (Except.error (Exn.runtime_error "Syntax Error at end of program")) :=
  ⟨C11_no_trailing_tokens.1 tokens_int_x_semi (Token.mk TokenType.End "END" 1) 3
      (some (Node.Statement none
        (Node.Declaration (Token.mk TokenType.Int "int" 1) (Token.mk TokenType.Var "x" 1)
          none)))
      ⟨tokens_int_x_semi, 3⟩ rfl rfl
      (by
        intro i t h hk
        match i, h with
        | 0, h => cases h; cases hk
        | 1, h => cases h; cases hk
        | 2, h => cases h; cases hk
        | 3, h => rfl
        | n + 4, h => simp [tokens_int_x_semi] at h)
      rfl,
    C11_no_trailing_tokens.2 3
      ⟨[Token.mk TokenType.Int "int" 1, Token.mk TokenType.Var "x" 1,
        Token.mk TokenType.Semicolon ";" 1, Token.mk TokenType.R2 "\x7d" 1,
        Token.mk TokenType.End "END" 1], 0⟩
      ⟨[Token.mk TokenType.Int "int" 1, Token.mk TokenType.Var "x" 1,
        Token.mk TokenType.Semicolon ";" 1, Token.mk TokenType.R2 "\x7d" 1,
        Token.mk TokenType.End "END" 1], 3⟩
      (some (Node.Statement none
        (Node.Declaration (Token.mk TokenType.Int "int" 1) (Token.mk TokenType.Var "x" 1)
          none)))
      (Token.mk TokenType.R2 "\x7d" 1) rfl rfl (by decide)⟩

/-! ## C12: the out-of-range fault is unreachable -/

/-- C12: `current` never throws during parsing. After construction on a token
sequence with the cursor at 0 the cursor is on a token; `next` keeps it on a
token, and there `current` returns; so `parseProgram` never throws
`out_of_range`: every exception it throws is a `runtime_error`, and a returned
root comes with the cursor still on a token of the constructed sequence. -/
theorem C12_out_of_range_unreachable :
    (∀ ts : List Token, (Parser.Parser (TokenArray.ofList ts)).in_range)
    ∧ (∀ ta : TokenArray, ta.in_range → ta.next.in_range)
    ∧ (∀ ta : TokenArray, ta.in_range → ∃ t, ta.current = Except.ok t)
    ∧ (∀ (ts : List Token) (fuel : Nat) (msg : String),
        parseProgram fuel (TokenArray.ofList ts) ≠ some (Except.error (Exn.out_of_range msg)))
    ∧ (∀ (ts : List Token) (fuel : Nat) (x : Exn),
        parseProgram fuel (TokenArray.ofList ts) = some (Except.error x) →
        ∃ msg, x = Exn.runtime_error msg)
    ∧ (∀ (ts : List Token) (fuel : Nat) (root : Option Node) (ta1 : TokenArray),
        parseProgram fuel (TokenArray.ofList ts) = some (Except.ok (root, ta1)) →
        ta1.tokens = (Parser.Parser (TokenArray.ofList ts)).tokens ∧ ta1.in_range) := by
  have hkeep : ∀ (ts : List Token) (fuel : Nat),
      keeps_cursor (Parser.Parser (TokenArray.ofList ts))
        (parseProgram fuel (TokenArray.ofList ts)) :=
    fun ts fuel => get_root_keeps_cursor fuel _ (Parser_in_range ts)
  refine ⟨Parser_in_range, next_in_range, ?_, ?_, ?_, ?_⟩
  · intro ta h
    obtain ⟨t, ht, _⟩ := current_in_range ta h
    exact ⟨t, ht⟩
  · intro ts fuel msg h
    have := hkeep ts fuel
    rw [h] at this
    obtain ⟨m, hm⟩ := this
    cases hm
  · intro ts fuel x h
    have := hkeep ts fuel
    rw [h] at this
    exact this
  · intro ts fuel root ta1 h
    have := hkeep ts fuel
    rw [h] at this
    exact this

/-- C12 at the tokens of `int x = 5` (the thrown `Missing ;` is a
`runtime_error`) and at the tokens of `int x ;`. -/
theorem C12_out_of_range_unreachable_witness :
    (∃ msg, Exn.runtime_error "Missing ; in line 1" = Exn.runtime_error msg)
    ∧ ((TokenArray.mk tokens_int_x_semi 3).tokens
          = (Parser.Parser (TokenArray.ofList tokens_int_x_semi)).tokens
        ∧ (TokenArray.mk tokens_int_x_semi 3).in_range)
    ∧ (TokenArray.next ⟨tokens_int_x_semi, 3⟩).in_range
    ∧ (∃ t, (TokenArray.mk tokens_int_x_semi 3).current = Except.ok t) :=
  ⟨C12_out_of_range_unreachable.2.2.2.2.1 tokens_int_x_5 5
      (Exn.runtime_error "Missing ; in line 1") rfl,
    C12_out_of_range_unreachable.2.2.2.2.2 tokens_int_x_semi 3
      (some (Node.Statement none
        (Node.Declaration (Token.mk TokenType.Int "int" 1) (Token.mk TokenType.Var "x" 1)
          none)))
      ⟨tokens_int_x_semi, 3⟩ rfl,
    C12_out_of_range_unreachable.2.1 ⟨tokens_int_x_semi, 3⟩ (by decide),
    C12_out_of_range_unreachable.2.2.1 ⟨tokens_int_x_semi, 3⟩ (by decide)⟩

/-! ## C13: the sentinel -/

/-- C13: the postcondition of `appendEndIfMissing`. The result ends with a
token of kind end-of-input; on the empty sequence it is the one token
`(End, "END", 1)`; on a sequence whose last token is not of kind end-of-input
it is the sequence followed by `(End, "END", line of that last token)`; on a
sequence that ends with a token of kind end-of-input it is the array itself;
the cursor is never changed; and the operation is idempotent. -/
theorem C13_appendEndIfMissing_postcondition (ta : TokenArray) :
    (∃ e, ta.appendEndIfMissing.tokens.getLast? = some e ∧ e.type = TokenType.End)
    ∧ (ta.tokens = [] →
        ta.appendEndIfMissing.tokens = [Token.mk TokenType.End "END" 1])
    ∧ (∀ last, ta.tokens.getLast? = some last → last.type ≠ TokenType.End →
        ta.appendEndIfMissing.tokens
          = ta.tokens ++ [Token.mk TokenType.End "END" last.line])
    ∧ (∀ last, ta.tokens.getLast? = some last → last.type = TokenType.End →
        ta.appendEndIfMissing = ta)
    ∧ ta.appendEndIfMissing.pos = ta.pos
    ∧ ta.appendEndIfMissing.appendEndIfMissing = ta.appendEndIfMissing := by
  cases h : ta.tokens.getLast? with
  | none =>
    have hnil : ta.tokens = [] := List.getLast?_eq_none_iff.mp h
    have hA : ta.appendEndIfMissing
        = { ta with tokens := ta.tokens ++ [Token.mk TokenType.End "END" 1] } := by
      simp [TokenArray.appendEndIfMissing, h]
    refine ⟨⟨Token.mk TokenType.End "END" 1, ?_, rfl⟩, ?_, ?_, ?_, ?_, ?_⟩
    · rw [hA]; simp
    · intro _; rw [hA]; simp [hnil]
    · intro last hl; exact absurd hl (by simp)
    · intro last hl; exact absurd hl (by simp)
    · rw [hA]
    · rw [hA]; simp [TokenArray.appendEndIfMissing]
  | some back =>
    by_cases hb : back.type = TokenType.End
    · have hA : ta.appendEndIfMissing = ta := by
        simp [TokenArray.appendEndIfMissing, h, hb]
      refine ⟨⟨back, by rw [hA]; exact h, hb⟩, ?_, ?_, ?_, ?_, ?_⟩
      · intro hnil; rw [hnil] at h; simp at h
      · intro last hl hne
        rw [Option.some.inj hl] at hb
        exact absurd hb hne
      · intro _ _ _; exact hA
      · rw [hA]
      · rw [hA, hA]
    · have hA : ta.appendEndIfMissing
          = { ta with tokens := ta.tokens ++ [Token.mk TokenType.End "END" back.line] } := by
        simp [TokenArray.appendEndIfMissing, h, hb]
      refine ⟨⟨Token.mk TokenType.End "END" back.line, ?_, rfl⟩, ?_, ?_, ?_, ?_, ?_⟩
      · rw [hA]; simp
      · intro hnil; rw [hnil] at h; simp at h
      · intro last hl _
        rw [hA, Option.some.inj hl]
      · intro last hl he
        rw [Option.some.inj hl] at hb
        exact absurd he hb
      · rw [hA]
      · rw [hA]; simp [TokenArray.appendEndIfMissing]

/-- C13 at the tokens of `int x = 5` (the sentinel is appended with line 1),
at the same tokens with the sentinel (unchanged) and at the empty sequence. -/
theorem C13_appendEndIfMissing_postcondition_witness :
    (TokenArray.mk [] 0).appendEndIfMissing.tokens = [Token.mk TokenType.End "END" 1]
    ∧ (TokenArray.mk tokens_int_x_5 0).appendEndIfMissing.tokens
        = tokens_int_x_5
          ++ [Token.mk TokenType.End "END" (Token.mk TokenType.IntLit "5" 1).line]
    ∧ (TokenArray.mk tokens_int_x_semi 3).appendEndIfMissing
        = TokenArray.mk tokens_int_x_semi 3 :=
  ⟨(C13_appendEndIfMissing_postcondition (TokenArray.mk [] 0)).2.1 rfl,
    (C13_appendEndIfMissing_postcondition (TokenArray.mk tokens_int_x_5 0)).2.2.1
      (Token.mk TokenType.IntLit "5" 1) rfl (by decide),
    (C13_appendEndIfMissing_postcondition (TokenArray.mk tokens_int_x_semi 3)).2.2.2.1
      (Token.mk TokenType.End "END" 1) rfl rfl⟩

/-! ## C14: the clamped advance -/

/-- C14: `next` is clamped. It never changes the token sequence; the new
cursor is `p + 1` when that is below the number `n` of tokens and `p` otherwise,
the sum being the one of `size_t` (for `p + 1` below `2 ^ 64`, hence for every
cursor up to `n`, it is the sum of the naturals); with `p < n` the new cursor
is `min (p + 1) (n - 1)`; and at the last index `next` changes nothing. -/
theorem C14_next_clamped (ta : TokenArray) :
    (ta.next).tokens = ta.tokens
    ∧ (ta.next).pos
        = (if (ta.pos + 1) % SIZE_T_RANGE < ta.tokens.length
            then (ta.pos + 1) % SIZE_T_RANGE else ta.pos)
    ∧ (ta.pos + 1 < SIZE_T_RANGE →
        (ta.next).pos = (if ta.pos + 1 < ta.tokens.length then ta.pos + 1 else ta.pos))
    ∧ (ta.pos < ta.tokens.length → ta.tokens.length < SIZE_T_RANGE →
        (ta.next).pos = min (ta.pos + 1) (ta.tokens.length - 1))
    ∧ (ta.pos + 1 = ta.tokens.length → ta.tokens.length < SIZE_T_RANGE → ta.next = ta) := by
  have hmod : ta.pos + 1 < SIZE_T_RANGE → (ta.pos + 1) % SIZE_T_RANGE = ta.pos + 1 :=
    fun h => Nat.mod_eq_of_lt h
  refine ⟨?_, ?_, ?_, ?_, ?_⟩
  · unfold TokenArray.next
    split_ifs <;> rfl
  · unfold TokenArray.next
    split_ifs <;> rfl
  · intro h
    unfold TokenArray.next
    rw [hmod h]
    split_ifs <;> rfl
  · intro hp hn
    unfold TokenArray.next
    rw [hmod (by omega)]
    split_ifs with hlt
    · show ta.pos + 1 = min (ta.pos + 1) (ta.tokens.length - 1)
      omega
    · show ta.pos = min (ta.pos + 1) (ta.tokens.length - 1)
      omega
  · intro hp hn
    unfold TokenArray.next
    rw [hmod (by omega)]
    split_ifs with hlt
    · omega
    · rfl

/-- C14 on a three-token array: from index 1 the cursor moves to 2, at index 2
(the last) it stays. -/
theorem C14_next_clamped_witness :
    (TokenArray.next ⟨tokens_int_x_semi.tail, 1⟩).pos
        = (if 1 + 1 < tokens_int_x_semi.tail.length then 1 + 1 else 1)
    ∧ (TokenArray.next ⟨tokens_int_x_semi.tail, 1⟩).pos
        = min (1 + 1) (tokens_int_x_semi.tail.length - 1)
    ∧ TokenArray.next ⟨tokens_int_x_semi.tail, 2⟩ = ⟨tokens_int_x_semi.tail, 2⟩ :=
  ⟨(C14_next_clamped ⟨tokens_int_x_semi.tail, 1⟩).2.2.1 (by decide),
    (C14_next_clamped ⟨tokens_int_x_semi.tail, 1⟩).2.2.2.1 (by decide) (by decide),
    (C14_next_clamped ⟨tokens_int_x_semi.tail, 2⟩).2.2.2.2 (by decide) (by decide)⟩

/-! ## C15: expect and consume -/

/-- The state-passing `read_token_pass` is `read_token_pass_state` with the
array dropped when the call throws. -/
theorem read_token_pass_state_result (e m : String) (ta : TokenArray) :
    read_token_pass e m ta
      = (match read_token_pass_state e m ta with
         | (Except.error x, _) => Except.error x
         | (Except.ok u, ta1) => Except.ok (u, ta1)) := by
  unfold read_token_pass read_token_pass_state
  cases ta.current with
  | error x => rfl
  | ok t =>
    simp only
    split_ifs <;> rfl

/-- C15: `read_token_pass` is atomic. With the cursor on a token `t`: if the
text of `t` is the expected one the call returns and the array is advanced by
one `next` (one index further, or the same index at the last one); otherwise it
throws the message followed by ` in line ` and the line of `t`, and the array,
cursor included, is as before the call. -/
theorem C15_read_token_pass_atomic (ta : TokenArray) (e m : String) (t : Token)
    (hcur : ta.tokens[ta.pos]? = some t) :
    (t.value = e →
      read_token_pass e m ta = Except.ok ((), ta.next)
      ∧ read_token_pass_state e m ta = (Except.ok (), ta.next)
      ∧ (ta.next).tokens = ta.tokens
      ∧ (ta.tokens.length < SIZE_T_RANGE →
          (ta.next).pos = min (ta.pos + 1) (ta.tokens.length - 1)))
    ∧ (t.value ≠ e →
      read_token_pass e m ta
        = Except.error (Exn.runtime_error (m ++ " in line " ++ toString t.line))
      ∧ read_token_pass_state e m ta
        = (Except.error (Exn.runtime_error (m ++ " in line " ++ toString t.line)), ta)) := by
  have hc : ta.current = Except.ok t := by
    simp only [TokenArray.current, hcur]
  have hlt : ta.pos < ta.tokens.length := lt_length_of_getElem? hcur
  refine ⟨?_, ?_⟩
  · intro hv
    refine ⟨?_, ?_, ?_, ?_⟩
    · simp [read_token_pass, hc, hv]
    · simp [read_token_pass_state, hc, hv]
    · unfold TokenArray.next
      split_ifs <;> rfl
    · intro hn
      unfold TokenArray.next
      rw [Nat.mod_eq_of_lt (by omega)]
      split_ifs with h
      · show ta.pos + 1 = min (ta.pos + 1) (ta.tokens.length - 1)
        omega
      · show ta.pos = min (ta.pos + 1) (ta.tokens.length - 1)
        omega
  · intro hv
    refine ⟨?_, ?_⟩
    · simp [read_token_pass, hc, hv]
    · simp [read_token_pass_state, hc, hv]

/-- C15 on the tokens of `int x ;` with the cursor on `;` (on line 1): the
expected `;` is consumed, the expected `=` is refused with line 1. -/
theorem C15_read_token_pass_atomic_witness :
    (read_token_pass ";" "Missing ;" ⟨tokens_int_x_semi, 2⟩
        = Except.ok ((), TokenArray.next ⟨tokens_int_x_semi, 2⟩)
      ∧ read_token_pass_state ";" "Missing ;" ⟨tokens_int_x_semi, 2⟩
        = (Except.ok (), TokenArray.next ⟨tokens_int_x_semi, 2⟩)
      ∧ (TokenArray.next ⟨tokens_int_x_semi, 2⟩).tokens = tokens_int_x_semi
      ∧ (tokens_int_x_semi.length < SIZE_T_RANGE →
          (TokenArray.next ⟨tokens_int_x_semi, 2⟩).pos
            = min (2 + 1) (tokens_int_x_semi.length - 1)))
    ∧ (read_token_pass "=" "Missing =" ⟨tokens_int_x_semi, 2⟩
        = Except.error (Exn.runtime_error
            ("Missing =" ++ " in line " ++ toString (Token.mk TokenType.Semicolon ";" 1).line))
      ∧ read_token_pass_state "=" "Missing =" ⟨tokens_int_x_semi, 2⟩
        = (Except.error (Exn.runtime_error
            ("Missing =" ++ " in line " ++ toString (Token.mk TokenType.Semicolon ";" 1).line)),
           ⟨tokens_int_x_semi, 2⟩)) :=
  ⟨(C15_read_token_pass_atomic ⟨tokens_int_x_semi, 2⟩ ";" "Missing ;"
      (Token.mk TokenType.Semicolon ";" 1) rfl).1 rfl,
    (C15_read_token_pass_atomic ⟨tokens_int_x_semi, 2⟩ "=" "Missing ="
      (Token.mk TokenType.Semicolon ";" 1) rfl).2 (by decide)⟩

/-! ## C16: one comparison -/

/-- Where the loop of `expr` returns, the token under the cursor has a text
other than `+` and `-`. -/
theorem expr_loop_stops (fuel : Nat) :
    ∀ (left : Node) (ta : TokenArray) (e : Node) (ta1 : TokenArray),
      expr_loop fuel left ta = some (Except.ok (e, ta1)) →
      ∃ t, ta1.current = Except.ok t ∧ t.value ≠ "+" ∧ t.value ≠ "-" := by
  induction fuel with
  | zero => intro left ta e ta1 h; simp [expr_loop] at h
  | succ n ih =>
    intro left ta e ta1 h
    rw [expr_loop] at h
    cases hc : ta.current with
    | error x => rw [hc] at h; simp at h
    | ok op =>
      rw [hc] at h
      simp only at h
      by_cases hop : op.value = "+" ∨ op.value = "-"
      · rw [if_pos hop] at h
        cases ht : term n ta.next with
        | none => rw [ht] at h; simp at h
        | some x =>
          rw [ht] at h
          cases x with
          | error x => simp at h
          | ok v =>
            obtain ⟨right, ta2⟩ := v
            exact ih _ _ _ _ h
      · rw [if_neg hop] at h
        injection h with h
        injection h with h
        injection h with h1 h2
        subst h2
        exact ⟨op, hc, fun h => hop (Or.inl h), fun h => hop (Or.inr h)⟩

theorem expr_stops (fuel : Nat) (ta : TokenArray) (e : Node) (ta1 : TokenArray)
    (h : expr fuel ta = some (Except.ok (e, ta1))) :
    ∃ t, ta1.current = Except.ok t ∧ t.value ≠ "+" ∧ t.value ≠ "-" := by
  cases fuel with
  | zero => simp [expr] at h
  | succ n =>
    rw [expr] at h
    cases ht : term n ta with
    | none => rw [ht] at h; simp at h
    | some x =>
      rw [ht] at h
      cases x with
      | error x => simp at h
      | ok v =>
        obtain ⟨left, ta2⟩ := v
        exact expr_loop_stops n _ _ _ _ h

/-- C16: `condition` takes exactly one comparison. Where `expr` parses the left
operand to `e1` and stops on the token `op`: if `op` has kind comparison and
`expr` parses what follows it to `e2`, `condition` returns
`Condition(e1, op, e2)`; if `op` has any other kind, `condition` throws
`Expected comparison operator in line` followed by the line of `op`. (The
token `expr` stops on never has the text `+` or `-`: such a token continues the
left operand.) A second comparison is left to the caller: on the tokens of
`if (a < b < c) { }` `parseProgram` throws `Missing ) after if condition`. -/
theorem C16_condition_one_comparison :
    (∀ (ts : List Token) (p q r f1 f2 fuel : Nat) (e1 e2 : Node) (op : Token),
      expr f1 ⟨ts, p⟩ = some (Except.ok (e1, ⟨ts, q⟩)) →
      ts[q]? = some op → op.type = TokenType.Comparison →
      expr f2 ⟨ts, q + 1⟩ = some (Except.ok (e2, ⟨ts, r⟩)) →
      ts.length < SIZE_T_RANGE → f1 ≤ fuel → f2 ≤ fuel →
      condition fuel ⟨ts, p⟩ = some (Except.ok (Node.Condition e1 op e2, ⟨ts, r⟩)))
    ∧ (∀ (ts : List Token) (p q f1 fuel : Nat) (e1 : Node) (op : Token),
      expr f1 ⟨ts, p⟩ = some (Except.ok (e1, ⟨ts, q⟩)) →
      ts[q]? = some op → op.type ≠ TokenType.Comparison → f1 ≤ fuel →
      condition fuel ⟨ts, p⟩
        = some (Except.error (Exn.runtime_error
            ("Expected comparison operator in line " ++ toString op.line))))
    ∧ (∀ (ts : List Token) (p q f1 : Nat) (e1 : Node) (op : Token),
      expr f1 ⟨ts, p⟩ = some (Except.ok (e1, ⟨ts, q⟩)) →
      ts[q]? = some op → op.value ≠ "+" ∧ op.value ≠ "-")
    ∧ (∀ fuel, 7 ≤ fuel →
      parseProgram fuel (TokenArray.ofList tokens_if_chained)
        = some (Except.error
            (Exn.runtime_error "Missing ) after if condition in line 1"))) := by
  refine ⟨?_, ?_, ?_, fun fuel hfuel => parseProgram_mono (f := 7) hfuel rfl⟩
  · intro ts p q r f1 f2 fuel e1 e2 op h1 hop hk h2 hsize hf1 hf2
    have i1 : q + 1 < ts.length := expr_ok_in_range f2 ⟨ts, q + 1⟩ _ h2
    simp [condition, expr_mono hf1 h1, current_idx ts q op hop, hk,
      next_idx ts q i1 hsize, expr_mono hf2 h2]
  · intro ts p q f1 fuel e1 op h1 hop hk hf1
    simp [condition, expr_mono hf1 h1, current_idx ts q op hop, hk]
  · intro ts p q f1 e1 op h1 hop
    obtain ⟨t, hc, hv⟩ := expr_stops f1 _ _ _ h1
    rw [current_idx ts q op hop] at hc
    injection hc with hc
    rw [hc]
    exact hv

/-- C16 at the tokens of `a < b )` (a condition) and of `a = b` (an
assignment sign where the comparison is expected, on line 2). -/
theorem C16_condition_one_comparison_witness :
    condition 4 ⟨tokens_if_else, 2⟩
      = some (Except.ok
          (Node.Condition (Node.IdentifierNode (Token.mk TokenType.Var "a" 1))
            (Token.mk TokenType.Comparison "<" 1)
            (Node.IdentifierNode (Token.mk TokenType.Var "b" 1)),
           ⟨tokens_if_else, 5⟩))
    ∧ condition 4 ⟨tokens_x_eq_1, 0⟩
      = some (Except.error (Exn.runtime_error
          ("Expected comparison operator in line "
            ++ toString (Token.mk TokenType.Assign "=" 2).line)))
    ∧ ((Token.mk TokenType.Assign "=" 2).value ≠ "+"
        ∧ (Token.mk TokenType.Assign "=" 2).value ≠ "-") :=
  ⟨C16_condition_one_comparison.1 tokens_if_else 2 3 5 3 3 4
      (Node.IdentifierNode (Token.mk TokenType.Var "a" 1))
      (Node.IdentifierNode (Token.mk TokenType.Var "b" 1))
      (Token.mk TokenType.Comparison "<" 1) rfl rfl rfl rfl (by decide) (by decide)
      (by decide),
    C16_condition_one_comparison.2.1 tokens_x_eq_1 0 1 3 4
      (Node.IdentifierNode (Token.mk TokenType.Var "x" 2))
      (Token.mk TokenType.Assign "=" 2) rfl rfl (by decide) (by decide),
    C16_condition_one_comparison.2.2.1 tokens_x_eq_1 0 1 3
      (Node.IdentifierNode (Token.mk TokenType.Var "x" 2))
      (Token.mk TokenType.Assign "=" 2) rfl rfl⟩

/-! ## C17: the empty program -/

/-- C17: the empty program gives the null root. On the empty token sequence
the constructor appends the sentinel and `get_root` returns the null pointer
without an exception, for every recursion budget of at least 2. -/
theorem C17_empty_program_null_root (fuel : Nat) :
    parseProgram (fuel + 2) (TokenArray.ofList [])
      = some (Except.ok (none, ⟨[Token.mk TokenType.End "END" 1], 0⟩)) :=
  parseProgram_mono (f := 2) (Nat.le_add_left 2 fuel) rfl

/-! ## C18: the chain of statements -/

theorem statement_run_current (fuel : Nat) (ta final : TokenArray) (ss : List Node)
    (t_end : Token) (hrun : statement_run fuel ta ss final)
    (hend : final.current = Except.ok t_end) : ∃ t, ta.current = Except.ok t := by
  cases ss with
  | nil =>
    have : ta = final := hrun
    rw [this]
    exact ⟨t_end, hend⟩
  | cons s ss =>
    obtain ⟨t, ta1, hc, _⟩ := hrun
    exact ⟨t, hc⟩

theorem statements_loop_run (fuel : Nat) (final : TokenArray) (t_end : Token)
    (hend : final.current = Except.ok t_end)
    (hstop : t_end.value = "END" ∨ t_end.value = "\x7d") :
    ∀ (ss : List Node) (ta : TokenArray) (left : Option Node) (t : Token) (g : Nat),
      statement_run fuel ta ss final → ta.current = Except.ok t →
      fuel + ss.length + 1 ≤ g →
      statements_loop g left t ta = some (Except.ok (chain_from left ss, final)) := by
  intro ss
  induction ss with
  | nil =>
    intro ta left t g hrun hc hg
    obtain ⟨n, rfl⟩ : ∃ n, g = n + 1 := ⟨g - 1, by omega⟩
    have hta : ta = final := hrun
    subst hta
    rw [hend] at hc
    injection hc with hc
    subst hc
    have hs : ¬ (t_end.value ≠ "END" ∧ t_end.value ≠ "\x7d") := by
      rcases hstop with h | h <;> simp [h]
    rw [statements_loop_step, if_neg hs]
    rfl
  | cons s ss ih =>
    intro ta left t g hrun hc hg
    obtain ⟨n, rfl⟩ : ∃ n, g = n + 1 := ⟨g - 1, by omega⟩
    obtain ⟨t0, ta1, hc0, h1, h2, hrule, hrest⟩ := hrun
    rw [hc] at hc0
    injection hc0 with hc0
    subst hc0
    obtain ⟨t1, hc1⟩ := statement_run_current fuel ta1 final ss t_end hrest hend
    have hrule2 := statement_rule_mono (g := n)
      (by simp only [List.length_cons] at hg; omega) hrule
    rw [statements_loop_step, if_pos ⟨h1, h2⟩, hrule2]
    simp only [hc1]
    exact ih ta1 _ t1 n hrest hc1 (by simp only [List.length_cons] at hg; omega)

theorem flatten_chain_from (ss : List Node) :
    ∀ left, flatten_chain (chain_from left ss) = flatten_chain left ++ ss := by
  induction ss with
  | nil => intro left; simp [chain_from]
  | cons s ss ih =>
    intro left
    rw [chain_from, ih, flatten_chain]
    simp

/-- C18: the chain is cut at a statement that starts with the text `END`. On
the tokens of `x = 1 ; END = 2 ;` the rule `assignment` accepts the second
statement from index 4, yet `statements` returns the chain of the first
statement alone, with the cursor left on the identifier `END` at index 4, and
`parseProgram` throws the end-of-program error. Where no statement starts with
the text `END` or the text of a closing brace the order is kept: when from the
array `ta` the statements `s1 ... sn` are parsed one after the other and the
loop then meets a token of text `END` or of the text of a closing brace,
`statements` returns the left-leaning chain
`Statement(...Statement(null, s1)..., sn)`, for every recursion budget large
enough; flattening that chain gives `[s1, ..., sn]`; for no statement the chain
is the null pointer, for three it is
`Statement(Statement(Statement(null, s1), s2), s3)`; and the tokens of
`int x ; x = 1 ; print ( x ) ;` give the chain of the three statements in
source order. -/
theorem C18_statement_chain_cut_at_identifier_END :
    (∀ fuel, 3 ≤ fuel →
        assignment fuel ⟨tokens_x_then_END, 4⟩
          = some (Except.ok
              (Node.Assignment (Token.mk TokenType.Var "END" 2)
                (Node.NumberNode (Token.mk TokenType.IntLit "2" 2)),
               ⟨tokens_x_then_END, 8⟩)))
    ∧ (∀ fuel, 5 ≤ fuel →
        statements fuel ⟨tokens_x_then_END, 0⟩
          = some (Except.ok
              (some (Node.Statement none
                (Node.Assignment (Token.mk TokenType.Var "x" 1)
                  (Node.NumberNode (Token.mk TokenType.IntLit "1" 1)))),
               ⟨tokens_x_then_END, 4⟩)))
    ∧ (∀ fuel, 5 ≤ fuel →
        parseProgram fuel (TokenArray.ofList tokens_x_then_END)
          = some (Except.error (Exn.runtime_error "Syntax Error at end of program")))
    ∧ (∀ (fuel : Nat) (ta final : TokenArray) (ss : List Node) (t_end : Token) (g : Nat),
      statement_run fuel ta ss final → final.current = Except.ok t_end →
      t_end.value = "END" ∨ t_end.value = "\x7d" →
      fuel + ss.length + 2 ≤ g →
      statements g ta = some (Except.ok (chain_from none ss, final)))
    ∧ (∀ ss : List Node, flatten_chain (chain_from none ss) = ss)
    ∧ chain_from none [] = none
    ∧ (∀ s1 s2 s3 : Node,
        chain_from none [s1, s2, s3]
          = some (Node.Statement
              (some (Node.Statement (some (Node.Statement none s1)) s2)) s3))
    ∧ (∀ fuel, 7 ≤ fuel →
        parseProgram fuel (TokenArray.ofList tokens_three_statements)
          = some (Except.ok
              (some (Node.Statement
                (some (Node.Statement (some (Node.Statement none stmt_decl_x))
                  stmt_assign_x))
                stmt_print_x),
               ⟨tokens_three_statements, 12⟩))) := by
  refine ⟨fun fuel hfuel => assignment_mono (f := 3) hfuel rfl,
    fun fuel hfuel => statements_mono (f := 5) hfuel rfl,
    fun fuel hfuel => parseProgram_mono (f := 5) hfuel rfl,
    ?_, ?_, rfl, fun _ _ _ => rfl,
    fun fuel hfuel => parseProgram_mono (f := 7) hfuel rfl⟩
  · intro fuel ta final ss t_end g hrun hend hstop hg
    obtain ⟨n, rfl⟩ : ∃ n, g = n + 1 := ⟨g - 1, by omega⟩
    obtain ⟨t, hc⟩ := statement_run_current fuel ta final ss t_end hrun hend
    rw [statements, hc]
    exact statements_loop_run fuel final t_end hend hstop ss ta none t n hrun hc (by omega)
  · intro ss
    rw [flatten_chain_from]
    simp [flatten_chain]

/-- C18 at the tokens of `int x ; x = 1 ; print ( x ) ;`: the three statements
are parsed from the indices 0, 3 and 7 and the loop stops on the end-of-input
token at index 12. -/
theorem C18_statement_chain_cut_at_identifier_END_witness :
    statements (3 + 3 + 2) ⟨tokens_three_statements, 0⟩
      = some (Except.ok
          (chain_from none [stmt_decl_x, stmt_assign_x, stmt_print_x],
           ⟨tokens_three_statements, 12⟩)) :=
  C18_statement_chain_cut_at_identifier_END.2.2.2.1 3 ⟨tokens_three_statements, 0⟩
    ⟨tokens_three_statements, 12⟩ [stmt_decl_x, stmt_assign_x, stmt_print_x]
    (Token.mk TokenType.End "END" 3) (3 + 3 + 2)
    ⟨Token.mk TokenType.Int "int" 1, ⟨tokens_three_statements, 3⟩, rfl, by decide,
      by decide, rfl,
      Token.mk TokenType.Var "x" 2, ⟨tokens_three_statements, 7⟩, rfl, by decide,
      by decide, rfl,
      Token.mk TokenType.Print "print" 3, ⟨tokens_three_statements, 12⟩, rfl, by decide,
      by decide, rfl, rfl⟩
    rfl (Or.inl rfl) (by decide)

/-! ## C19: the blocks of if and while -/

theorem statements_loop_is_chain (fuel : Nat) :
    ∀ (left : Option Node) (t : Token) (ta : TokenArray) (r : Option Node)
      (ta1 : TokenArray),
      statements_loop fuel left t ta = some (Except.ok (r, ta1)) →
      is_chain left → is_chain r := by
  induction fuel with
  | zero => intro left t ta r ta1 h; simp [statements_loop] at h
  | succ n ih =>
    intro left t ta r ta1 h hl
    rw [statements_loop_step] at h
    by_cases hs : t.value ≠ "END" ∧ t.value ≠ "\x7d"
    · rw [if_pos hs] at h
      cases hr : statement_rule n t ta with
      | none => rw [hr] at h; simp at h
      | some x =>
        rw [hr] at h
        cases x with
        | error e => simp at h
        | ok v =>
          obtain ⟨s, ta2⟩ := v
          simp only at h
          cases hc : ta2.current with
          | error e => rw [hc] at h; simp at h
          | ok t1 =>
            rw [hc] at h
            exact ih _ _ _ _ _ h (Or.inr ⟨left, s, rfl⟩)
    · rw [if_neg hs] at h
      injection h with h
      injection h with h
      injection h with h1 h2
      rw [← h1]
      exact hl

theorem statements_is_chain (fuel : Nat) (ta : TokenArray) (r : Option Node)
    (ta1 : TokenArray) (h : statements fuel ta = some (Except.ok (r, ta1))) :
    is_chain r := by
  cases fuel with
  | zero => simp [statements] at h
  | succ n =>
    rw [statements] at h
    cases hc : ta.current with
    | error e => rw [hc] at h; simp at h
    | ok t =>
      rw [hc] at h
      exact statements_loop_is_chain n _ _ _ _ _ h (Or.inl rfl)

theorem push_back_if_is_block (o : Option Node) (h : is_chain o) :
    is_block (push_back_if o) := by
  rcases h with rfl | ⟨l, s, rfl⟩
  · exact ⟨by simp [push_back_if], by simp [push_back_if]⟩
  · refine ⟨by simp [push_back_if], ?_⟩
    intro x hx
    simp only [push_back_if, List.mem_singleton] at hx
    exact ⟨l, s, hx⟩

theorem is_block_nil : is_block [] := ⟨by simp, by simp⟩

theorem if_statement_blocks (fuel : Nat) (ta : TokenArray) (node : Node)
    (ta1 : TokenArray) (h : if_statement fuel ta = some (Except.ok (node, ta1))) :
    ∃ cond tb eb, node = Node.IfStatement cond tb eb ∧ is_block tb ∧ is_block eb := by
  cases fuel with
  | zero => simp [if_statement] at h
  | succ n =>
    rw [if_statement] at h
    cases h1 : read_token_pass "(" "Missing ( after if" ta.next with
    | error e => rw [h1] at h; simp at h
    | ok w1 =>
      obtain ⟨u1, t1⟩ := w1
      rw [h1] at h
      simp only at h
      cases h2 : condition n t1 with
      | none => rw [h2] at h; simp at h
      | some x2 =>
        rw [h2] at h
        cases x2 with
        | error e => simp at h
        | ok v2 =>
          obtain ⟨cond, t2⟩ := v2
          simp only at h
          cases h3 : read_token_pass ")" "Missing ) after if condition" t2 with
          | error e => rw [h3] at h; simp at h
          | ok w3 =>
            obtain ⟨u3, t3⟩ := w3
            rw [h3] at h
            simp only at h
            cases h4 : read_token_pass "\x7b" "Missing \x7b after if" t3 with
            | error e => rw [h4] at h; simp at h
            | ok w4 =>
              obtain ⟨u4, t4⟩ := w4
              rw [h4] at h
              simp only at h
              cases h5 : statements n t4 with
              | none => rw [h5] at h; simp at h
              | some x5 =>
                rw [h5] at h
                cases x5 with
                | error e => simp at h
                | ok v5 =>
                  obtain ⟨then_block, t5⟩ := v5
                  have hb1 := push_back_if_is_block _ (statements_is_chain n _ _ _ h5)
                  simp only at h
                  cases h6 : read_token_pass "\x7d" "Missing \x7d after if block" t5 with
                  | error e => rw [h6] at h; simp at h
                  | ok w6 =>
                    obtain ⟨u6, t6⟩ := w6
                    rw [h6] at h
                    simp only at h
                    cases h7 : t6.current with
                    | error e => rw [h7] at h; simp at h
                    | ok t =>
                      rw [h7] at h
                      simp only at h
                      by_cases hel : is_value t "else" = true
                      · rw [if_pos hel] at h
                        cases h8 : read_token_pass "\x7b" "Missing \x7b after else" t6.next with
                        | error e => rw [h8] at h; simp at h
                        | ok w8 =>
                          obtain ⟨u8, t7⟩ := w8
                          rw [h8] at h
                          simp only at h
                          cases h9 : statements n t7 with
                          | none => rw [h9] at h; simp at h
                          | some x9 =>
                            rw [h9] at h
                            cases x9 with
                            | error e => simp at h
                            | ok v9 =>
                              obtain ⟨else_block, t8⟩ := v9
                              have hb2 :=
                                push_back_if_is_block _ (statements_is_chain n _ _ _ h9)
                              simp only at h
                              cases h10 : read_token_pass "\x7d" "Missing \x7d after else block"
                                  t8 with
                              | error e => rw [h10] at h; simp at h
                              | ok w10 =>
                                obtain ⟨u10, t9⟩ := w10
                                rw [h10] at h
                                injection h with h
                                injection h with h
                                injection h with ha hb
                                exact ⟨_, _, _, ha.symm, hb1, hb2⟩
                      · rw [if_neg hel] at h
                        injection h with h
                        injection h with h
                        injection h with ha hb
                        exact ⟨_, _, _, ha.symm, hb1, is_block_nil⟩

theorem while_statement_blocks (fuel : Nat) (ta : TokenArray) (node : Node)
    (ta1 : TokenArray) (h : while_statement fuel ta = some (Except.ok (node, ta1))) :
    ∃ cond body, node = Node.WhileStatement cond body ∧ is_block body := by
  cases fuel with
  | zero => simp [while_statement] at h
  | succ n =>
    rw [while_statement] at h
    cases h1 : read_token_pass "(" "Missing ( after while" ta.next with
    | error e => rw [h1] at h; simp at h
    | ok w1 =>
      obtain ⟨u1, t1⟩ := w1
      rw [h1] at h
      simp only at h
      cases h2 : condition n t1 with
      | none => rw [h2] at h; simp at h
      | some x2 =>
        rw [h2] at h
        cases x2 with
        | error e => simp at h
        | ok v2 =>
          obtain ⟨cond, t2⟩ := v2
          simp only at h
          cases h3 : read_token_pass ")" "Missing ) after while condition" t2 with
          | error e => rw [h3] at h; simp at h
          | ok w3 =>
            obtain ⟨u3, t3⟩ := w3
            rw [h3] at h
            simp only at h
            cases h4 : read_token_pass "\x7b" "Missing \x7b after while" t3 with
            | error e => rw [h4] at h; simp at h
            | ok w4 =>
              obtain ⟨u4, t4⟩ := w4
              rw [h4] at h
              simp only at h
              cases h5 : statements n t4 with
              | none => rw [h5] at h; simp at h
              | some x5 =>
                rw [h5] at h
                cases x5 with
                | error e => simp at h
                | ok v5 =>
                  obtain ⟨body, t5⟩ := v5
                  have hb1 := push_back_if_is_block _ (statements_is_chain n _ _ _ h5)
                  simp only at h
                  cases h6 : read_token_pass "\x7d" "Missing \x7d after while block" t5 with
                  | error e => rw [h6] at h; simp at h
                  | ok w6 =>
                    obtain ⟨u6, t6⟩ := w6
                    rw [h6] at h
                    injection h with h
                    injection h with h
                    injection h with ha hb
                    exact ⟨_, _, ha.symm, hb1⟩

/-- C19: an empty else block leaves no trace. On `if ( C ) { S } else { }` and
on `if ( C ) { S }` not followed by `else`, where `condition` parses `C` to `c`
and `statements` parses `S` to the same chain, `if_statement` returns the same
node, with an empty `else_body`; and in every node `if_statement` or
`while_statement` returns, each of `then_body`, `else_body` and `body` has at
most one element, which is a `Statement` node. -/
theorem C19_empty_else_and_block_shape :
    (∀ (ts ts2 : List Token) (p q r p2 q2 r2 f1 f2 f3 f4 fuel : Nat) (c : Node)
        (then_block : Option Node),
      text_at ts (p + 1) "(" →
      condition f1 ⟨ts, p + 2⟩ = some (Except.ok (c, ⟨ts, q⟩)) →
      text_at ts q ")" → text_at ts (q + 1) "\x7b" →
      statements f2 ⟨ts, q + 2⟩ = some (Except.ok (then_block, ⟨ts, r⟩)) →
      text_at ts r "\x7d" → text_at ts (r + 1) "else" → text_at ts (r + 2) "\x7b" →
      text_at ts (r + 3) "\x7d" → ts.length < SIZE_T_RANGE →
      text_at ts2 (p2 + 1) "(" →
      condition f3 ⟨ts2, p2 + 2⟩ = some (Except.ok (c, ⟨ts2, q2⟩)) →
      text_at ts2 q2 ")" → text_at ts2 (q2 + 1) "\x7b" →
      statements f4 ⟨ts2, q2 + 2⟩ = some (Except.ok (then_block, ⟨ts2, r2⟩)) →
      text_at ts2 r2 "\x7d" → (∀ t, ts2[r2 + 1]? = some t → t.value ≠ "else") →
      ts2.length < SIZE_T_RANGE →
      f1 ≤ fuel → f2 ≤ fuel → f3 ≤ fuel → f4 ≤ fuel →
      if_statement (fuel + 1) ⟨ts, p⟩
        = some (Except.ok (Node.IfStatement c (push_back_if then_block) [],
            TokenArray.next ⟨ts, r + 3⟩))
      ∧ if_statement (fuel + 1) ⟨ts2, p2⟩
        = some (Except.ok (Node.IfStatement c (push_back_if then_block) [],
            TokenArray.next ⟨ts2, r2⟩)))
    ∧ (∀ (fuel : Nat) (ta ta1 : TokenArray) (node : Node),
      if_statement fuel ta = some (Except.ok (node, ta1)) →
      ∃ cond then_body else_body, node = Node.IfStatement cond then_body else_body
        ∧ is_block then_body ∧ is_block else_body)
    ∧ (∀ (fuel : Nat) (ta ta1 : TokenArray) (node : Node),
      while_statement fuel ta = some (Except.ok (node, ta1)) →
      ∃ cond body, node = Node.WhileStatement cond body ∧ is_block body) := by
  refine ⟨?_, fun fuel ta ta1 node h => if_statement_blocks fuel ta node ta1 h,
    fun fuel ta ta1 node h => while_statement_blocks fuel ta node ta1 h⟩
  intro ts ts2 p q r p2 q2 r2 f1 f2 f3 f4 fuel c then_block hlp hcond hrp hlb hs1 hrb hel
    hlb2 hrb2 hsize hlp' hcond' hrp' hlb' hs1' hrb' hne' hsize' hf1 hf2 hf3 hf4
  obtain ⟨n, hn⟩ := condition_ok_fuel f1 _ _ hcond
  obtain ⟨m, rfl⟩ : ∃ m, fuel = m + 2 := ⟨fuel - 2, by omega⟩
  refine ⟨?_, ?_⟩
  · replace hcond := condition_mono hf1 hcond
    replace hs1 := statements_mono hf2 hs1
    have i1 := text_at_lt hlp
    have i2 : p + 2 < ts.length := condition_ok_in_range _ ⟨ts, p + 2⟩ _ hcond
    have i3 := text_at_lt hlb
    have i4 : q + 2 < ts.length := statements_ok_in_range _ ⟨ts, q + 2⟩ _ hs1
    have i5 := text_at_lt hel
    have i6 := text_at_lt hlb2
    have i7 := text_at_lt hrb2
    obtain ⟨te, hte, htev⟩ := hel
    simp [if_statement, next_idx ts p i1 hsize,
      read_token_pass_ok ts (p + 1) "(" _ hlp i2 hsize, hcond,
      read_token_pass_ok ts q ")" _ hrp i3 hsize,
      read_token_pass_ok ts (q + 1) "\x7b" _ hlb i4 hsize, hs1,
      read_token_pass_ok ts r "\x7d" _ hrb i5 hsize,
      current_idx ts (r + 1) te hte, is_value, htev, next_idx ts (r + 1) i6 hsize,
      read_token_pass_ok ts (r + 2) "\x7b" _ hlb2 i7 hsize,
      statements_at_close ts (r + 3) m hrb2, push_back_if,
      read_token_pass_match ts (r + 3) "\x7d" _ hrb2]
  · replace hcond' := condition_mono hf3 hcond'
    replace hs1' := statements_mono hf4 hs1'
    have i1 := text_at_lt hlp'
    have i2 : p2 + 2 < ts2.length := condition_ok_in_range _ ⟨ts2, p2 + 2⟩ _ hcond'
    have i3 := text_at_lt hlb'
    have i4 : q2 + 2 < ts2.length := statements_ok_in_range _ ⟨ts2, q2 + 2⟩ _ hs1'
    obtain ⟨t, ht, htv⟩ := current_after_close ts2 r2 hsize' hrb' hne'
    simp [if_statement, next_idx ts2 p2 i1 hsize',
      read_token_pass_ok ts2 (p2 + 1) "(" _ hlp' i2 hsize', hcond',
      read_token_pass_ok ts2 q2 ")" _ hrp' i3 hsize',
      read_token_pass_ok ts2 (q2 + 1) "\x7b" _ hlb' i4 hsize', hs1',
      read_token_pass_match ts2 r2 "\x7d" _ hrb', ht, is_value, htv]

/-- C19 at the tokens of `if (a < b) { print(a); } else { }` and of
`if (a < b) { print(a); }`, and at the nodes the rules return on
`if (a < b) { print(a); } else { print(b); }` and on `while (a < b) { }`. -/
theorem C19_empty_else_and_block_shape_witness :
    (if_statement (5 + 1) ⟨tokens_if_empty_else, 0⟩
        = some (Except.ok
            (Node.IfStatement
              (Node.Condition (Node.IdentifierNode (Token.mk TokenType.Var "a" 1))
                (Token.mk TokenType.Comparison "<" 1)
                (Node.IdentifierNode (Token.mk TokenType.Var "b" 1)))
              (push_back_if (some (Node.Statement none
                (Node.PrintStatement (Token.mk TokenType.Print "print" 1)
                  (Node.IdentifierNode (Token.mk TokenType.Var "a" 1))))))
              [],
             TokenArray.next ⟨tokens_if_empty_else, 12 + 3⟩))
      ∧ if_statement (5 + 1) ⟨tokens_if_only, 0⟩
        = some (Except.ok
            (Node.IfStatement
              (Node.Condition (Node.IdentifierNode (Token.mk TokenType.Var "a" 1))
                (Token.mk TokenType.Comparison "<" 1)
                (Node.IdentifierNode (Token.mk TokenType.Var "b" 1)))
              (push_back_if (some (Node.Statement none
                (Node.PrintStatement (Token.mk TokenType.Print "print" 1)
                  (Node.IdentifierNode (Token.mk TokenType.Var "a" 1))))))
              [],
             TokenArray.next ⟨tokens_if_only, 12⟩)))
    ∧ (∃ cond then_body else_body,
        Node.IfStatement
          (Node.Condition (Node.IdentifierNode (Token.mk TokenType.Var "a" 1))
            (Token.mk TokenType.Comparison "<" 1)
            (Node.IdentifierNode (Token.mk TokenType.Var "b" 1)))
          [Node.Statement none
            (Node.PrintStatement (Token.mk TokenType.Print "print" 1)
              (Node.IdentifierNode (Token.mk TokenType.Var "a" 1)))]
          [Node.Statement none
            (Node.PrintStatement (Token.mk TokenType.Print "print" 1)
              (Node.IdentifierNode (Token.mk TokenType.Var "b" 1)))]
          = Node.IfStatement cond then_body else_body
        ∧ is_block then_body ∧ is_block else_body)
    ∧ (∃ cond body,
        Node.WhileStatement
          (Node.Condition (Node.IdentifierNode (Token.mk TokenType.Var "a" 1))
            (Token.mk TokenType.Comparison "<" 1)
            (Node.IdentifierNode (Token.mk TokenType.Var "b" 1)))
          []
          = Node.WhileStatement cond body
        ∧ is_block body) :=
  ⟨C19_empty_else_and_block_shape.1 tokens_if_empty_else tokens_if_only
      0 5 12 0 5 12 3 5 3 5 5
      (Node.Condition (Node.IdentifierNode (Token.mk TokenType.Var "a" 1))
        (Token.mk TokenType.Comparison "<" 1)
        (Node.IdentifierNode (Token.mk TokenType.Var "b" 1)))
      (some (Node.Statement none
        (Node.PrintStatement (Token.mk TokenType.Print "print" 1)
          (Node.IdentifierNode (Token.mk TokenType.Var "a" 1)))))
      ⟨_, rfl, rfl⟩ rfl ⟨_, rfl, rfl⟩ ⟨_, rfl, rfl⟩ rfl ⟨_, rfl, rfl⟩ ⟨_, rfl, rfl⟩
      ⟨_, rfl, rfl⟩ ⟨_, rfl, rfl⟩ (by decide)
      ⟨_, rfl, rfl⟩ rfl ⟨_, rfl, rfl⟩ ⟨_, rfl, rfl⟩ rfl ⟨_, rfl, rfl⟩
      (by intro t h; cases h; decide) (by decide)
      (by decide) (by decide) (by decide) (by decide),
    C19_empty_else_and_block_shape.2.1 7
      ⟨tokens_if_else ++ [Token.mk TokenType.End "END" 1], 0⟩
      (TokenArray.next ⟨tokens_if_else ++ [Token.mk TokenType.End "END" 1], 20⟩) _ rfl,
    C19_empty_else_and_block_shape.2.2 4
      ⟨tokens_while_empty ++ [Token.mk TokenType.End "END" 1], 0⟩
      (TokenArray.next ⟨tokens_while_empty ++ [Token.mk TokenType.End "END" 1], 7⟩) _ rfl⟩

/-! ## C20: punctuation by text -/

/-- C20: the statement terminator is matched by its text alone. Whatever the
kind `k` of the token of text `;`, `parseProgram` on `int x = 5 ;` followed by
the end-of-input token returns the root `Statement(null, Declaration(int, x,
NumberLiteral 5))`, for every recursion budget of at least 5; so the root is
the one returned when the kind is `Semicolon`, and a string-literal token of
text `;` ends the statement. -/
theorem C20_terminator_matched_by_text (k : TokenType) (l : Int) (fuel : Nat) :
    parseProgram (fuel + 5) (TokenArray.ofList (tokens_decl_terminated_by k l))
      = some (Except.ok
          (some (Node.Statement none
            (Node.Declaration (Token.mk TokenType.Int "int" l) (Token.mk TokenType.Var "x" l)
              (some (Node.NumberNode (Token.mk TokenType.IntLit "5" l))))),
           ⟨tokens_decl_terminated_by k l, 5⟩))
    ∧ ast_of (parseProgram (fuel + 5) (TokenArray.ofList (tokens_decl_terminated_by k l)))
      = ast_of (parseProgram (fuel + 5)
          (TokenArray.ofList (tokens_decl_terminated_by TokenType.Semicolon l)))
    ∧ ast_of (parseProgram (fuel + 5)
          (TokenArray.ofList (tokens_decl_terminated_by TokenType.String l)))
      = some (Except.ok
          (some (Node.Statement none
            (Node.Declaration (Token.mk TokenType.Int "int" l) (Token.mk TokenType.Var "x" l)
              (some (Node.NumberNode (Token.mk TokenType.IntLit "5" l))))))) := by
  have key : ∀ k : TokenType,
      parseProgram (fuel + 5) (TokenArray.ofList (tokens_decl_terminated_by k l))
        = some (Except.ok
            (some (Node.Statement none
              (Node.Declaration (Token.mk TokenType.Int "int" l)
                (Token.mk TokenType.Var "x" l)
                (some (Node.NumberNode (Token.mk TokenType.IntLit "5" l))))),
             ⟨tokens_decl_terminated_by k l, 5⟩)) := by
    intro k
    simp [parseProgram, Parser.Parser, TokenArray.appendEndIfMissing, TokenArray.ofList,
      tokens_decl_terminated_by, get_root, statements, statements_loop, TokenArray.current,
      TokenArray.next, SIZE_T_RANGE, declarations, read_token_pass, is_value, expr, term,
      factor, expr_loop]
  refine ⟨key k, ?_, ?_⟩
  · rw [key k, key TokenType.Semicolon]
    rfl
  · rw [key TokenType.String]
    rfl

end ASTPrinter
